import Mathlib

/-!
# Verification of the `traced` execution tracer

A shallow embedding, in Lean 4, of the core of the `traced` Python package
(trace context propagation, the three instrumentation binding modes, the
storage backends, and the viewer's tree reconstruction), together with
theorems settling the frozen specification claims C1-C10.

Conventions used throughout:
* Python `None` / optional strings are modelled with `Option`.
* Generated UUIDs are modelled by a monotone counter threaded through the
  state: each call of `_generate_id` / `uuid.uuid4()` returns the current
  counter value and bumps it, so distinct draws are distinct values.
* Wall-clock timestamps are modelled as naturals where they matter
  (the viewer's ordering and grouping logic); the tracer core's timestamps
  are irrelevant to the claims about it and are omitted there.
* Text (SQLite `TEXT`, Python `str`) is modelled as a list of Unicode code
  points (`List Nat`), and JSON-compatible payloads as the inductive `J`.
-/

/-! ## Method wrapping of the `Traced` base class

Model of `Traced._wrap_methods` (src/traced/core/base.py, lines 138-201).
The Python implementation iterates over the public callable attributes in
`dir()` order and, for each, defines a wrapper closure `traced_method` that
executes `original_method(self, *args, **kwargs)`.  `original_method` is a
single variable local to `_wrap_methods`, rebound on every loop iteration,
and Python closures capture the variable (the cell), not its value at
definition time.  After the loop finishes, that one shared cell holds the
function of the **last** name iterated, so every wrapper dispatches to it.
-/

namespace Wrap

/-- The shared `original_method` cell after the wrapping loop has processed
the given (name, function) pairs: each iteration overwrites the cell with its
own function, so the final content is the last pair's function. -/
def wrapCell : List (String × (Nat → Nat)) → Option (Nat → Nat) → Option (Nat → Nat)
  | [], cell => cell
  | (_, f) :: rest, _ => wrapCell rest (some f)

/-- Invoke the wrapped public method `name` with argument `x`, as the code
does: look the name up among the wrapped names, and run the function held by
the shared `original_method` cell (resolved at call time, after the loop). -/
def callWrapped (ms : List (String × (Nat → Nat))) (name : String) (x : Nat) : Option Nat :=
  if (ms.map Prod.fst).contains name then
    (wrapCell ms none).map (fun f => f x)
  else none

/-- The dispatch the wrapper was meant to perform (and performs when the
class has a single public method): run the function bound to `name`. -/
def callDirect (ms : List (String × (Nat → Nat))) (name : String) (x : Nat) : Option Nat :=
  (ms.lookup name).map (fun f => f x)

/-- A class with two public methods, in `dir()` (alphabetical) order:
`a(x) = x + 1` and `b(x) = 2 * x`. -/
def twoMethods : List (String × (Nat → Nat)) :=
  [("a", fun x => x + 1), ("b", fun x => 2 * x)]

end Wrap

/-! ## Lazy storage bootstrap

Model of the module-global `_trace_storage` and `_get_trace_storage`
(src/traced/core/base.py, lines 17-33): when the global is `None`, the
function installs a fresh `InMemoryTraceStorage` and returns it; otherwise it
returns the already-installed instance.  Object identity of backend instances
is modelled by a tag drawn from the fresh-counter. -/

namespace Storage

structure Backend where
  tag : Nat
  events : List Nat
  artifacts : List Nat
  deriving DecidableEq

/-- `_get_trace_storage`: returns (backend to use, new global, new counter). -/
def getTraceStorage : Option Backend → Nat → Backend × Option Backend × Nat
  | none, c => (⟨c, [], []⟩, some ⟨c, [], []⟩, c + 1)
  | some b, c => (b, some b, c)

/-- A tracing operation that needs the storage backend: emitting an event,
saving an artifact, or fetching a trace. -/
inductive Op where
  | saveEvent (e : Nat)
  | saveArtifact (a : Nat)
  | getTrace (tid : Nat)

/-- Effect of one operation on the backend it is handed. -/
def applyOp : Op → Backend → Backend
  | .saveEvent e, b => { b with events := b.events ++ [e] }
  | .saveArtifact a, b => { b with artifacts := b.artifacts ++ [a] }
  | .getTrace _, b => b

/-- Run one tracing operation against the global state: obtain the backend via
`_get_trace_storage`, apply the operation to it (the global keeps referencing
that same mutated instance).  Also report the tag of the backend used. -/
def runOp : Op → Option Backend × Nat → (Option Backend × Nat) × Nat
  | op, (g, c) =>
    let (b, _, c') := getTraceStorage g c
    ((some (applyOp op b), c'), b.tag)

/-- Run a sequence of tracing operations, collecting the tag of the backend
each operation used. -/
def runOps : List Op → Option Backend × Nat → (Option Backend × Nat) × List Nat
  | [], s => (s, [])
  | op :: ops, s =>
    let (s', t) := runOp op s
    let (s'', ts) := runOps ops s'
    (s'', t :: ts)

theorem applyOp_tag (op : Op) (b : Backend) : (applyOp op b).tag = b.tag := by
  cases op <;> rfl

theorem runOps_configured (ops : List Op) (b : Backend) (c : Nat) :
    (runOps ops (some b, c)).2 = List.replicate ops.length b.tag ∧
      ∃ b', (runOps ops (some b, c)).1.1 = some b' ∧ b'.tag = b.tag := by
  induction ops generalizing b c with
  | nil => exact ⟨rfl, b, rfl, rfl⟩
  | cons op ops ih =>
    have h := ih (applyOp op b) c
    simp only [runOps, runOp, getTraceStorage]
    refine ⟨?_, ?_⟩
    · simp [h.1, applyOp_tag, List.replicate_succ]
    · obtain ⟨b', hb', ht⟩ := h.2
      exact ⟨b', hb', by rw [ht, applyOp_tag]⟩

end Storage

/-- C10: starting with no storage ever configured (global `None`, fresh
counter `c0`), no tracing operation fails for lack of configuration; the
first operation installs an in-memory backend (the one tagged `c0`), and
every operation in the sequence — the first and all subsequent ones — uses
exactly that backend instance, which stays installed in the global. -/
theorem C10_lazy_inmemory_storage (c0 : Nat) :
    (∀ ops : List Storage.Op,
        (Storage.runOps ops (none, c0)).2 = List.replicate ops.length c0) ∧
      (∀ (op : Storage.Op) (ops : List Storage.Op),
        ∃ b', (Storage.runOps (op :: ops) (none, c0)).1.1 = some b' ∧ b'.tag = c0) := by
  constructor
  · intro ops
    cases ops with
    | nil => rfl
    | cons op ops =>
      have h := Storage.runOps_configured ops (Storage.applyOp op ⟨c0, [], []⟩) (c0 + 1)
      simp only [Storage.runOps, Storage.runOp, Storage.getTraceStorage]
      simp [h.1, Storage.applyOp_tag, List.replicate_succ]
  · intro op ops
    have h := Storage.runOps_configured ops (Storage.applyOp op ⟨c0, [], []⟩) (c0 + 1)
    obtain ⟨b', hb', ht⟩ := h.2
    simp only [Storage.runOps, Storage.runOp, Storage.getTraceStorage]
    exact ⟨b', hb', by rw [ht, Storage.applyOp_tag]⟩

/-- C5 (code evaluated at the failing input): for the two-method class,
calling the wrapped method `a` on argument `3` executes `b`'s body and
returns `6`, while direct dispatch to `a` returns `4`.  The wrapper does not
invoke the operation it wraps. -/
theorem C5_wrapped_method_runs_last_method :
    Wrap.callWrapped Wrap.twoMethods "a" 3 = some 6 ∧
      Wrap.callDirect Wrap.twoMethods "a" 3 = some 4 ∧
      Wrap.callWrapped Wrap.twoMethods "a" 3 ≠ Wrap.callDirect Wrap.twoMethods "a" 3 := by
  refine ⟨rfl, rfl, by decide⟩

/-! ## The tracing core: context propagation and the three binding modes

An operational model of a single-threaded program built from nested traced
calls.  The three binding modes of the instrumentation layer are modelled
from the source:

* `Stmt.deco`     — a call of a function wrapped by the `@traced` decorator
                    (src/traced/decorators/function.py, lines 42-127);
* `Stmt.span`     — a `with span(...)` block
                    (src/traced/decorators/utils/span.py, `TracedSpan`);
* `Stmt.newObj`   — construction of a `Traced` object
                    (src/traced/core/base.py, `Traced.__init__`, lines 84-127);
* `Stmt.methCall` — a call of a wrapped public method on a previously
                    constructed `Traced` object (src/traced/core/base.py,
                    `traced_method`, lines 159-194).

Each call statement carries the optional explicit `trace_id` / `parent_id`
overrides, a body of nested statements, and `fail` — `some (msg, kind)` when
the operation's own code raises an exception with message `msg` and class
name `kind` after its nested calls complete (`none` when it returns
normally).  A nested exception propagates outward exactly as in Python:
each enclosing wrapper records its terminal event and re-raises.

Events carry, besides the fields the code stamps on them, a passive ghost
annotation (`Ghost`) recording which binding mode emitted the event, whether
explicit overrides were supplied, and the `(traceID, executionID)` of the
directly enclosing traced call at emission time (`none` for a root call).
The ghost data flows alongside the computation, never into it. -/

namespace Core

/-- Thread-local `TraceContext` content. -/
structure Ctx where
  traceId : Option Nat
  parentId : Option Nat
  deriving DecidableEq, Repr

/-- The `data` dictionary of an event, modelled by which keys the code put in
it; error entries keep their values (message, exception class name). -/
structure EvData where
  hasArgs : Bool := false
  hasKwargs : Bool := false
  hasResult : Bool := false
  error : Option String := none
  errType : Option String := none
  hasAttributes : Bool := false
  deriving DecidableEq, Repr

/-- A `TraceEvent` as the tracer emits it (timestamps omitted: no claim about
the tracer core depends on them). -/
structure Event where
  traceId : Nat
  executionId : Nat
  parentId : Option Nat
  agentName : String
  methodName : String
  eventType : String
  data : EvData
  deriving DecidableEq, Repr

/-- Binding mode that produced an event (ghost). -/
inductive Mode where
  | deco | span | meth
  deriving DecidableEq, Repr

/-- Ghost annotation: emitting mode, enclosing call, explicit overrides. -/
structure Ghost where
  mode : Mode
  enc : Option (Nat × Nat)
  ovT : Bool
  ovP : Bool
  deriving DecidableEq, Repr

structure GEvent where
  ev : Event
  ghost : Ghost
  deriving DecidableEq, Repr

/-- A constructed `Traced` object: the identifiers `Traced.__init__` froze. -/
structure TObj where
  traceId : Nat
  parentId : Option Nat
  executionId : Nat
  name : String
  deriving DecidableEq, Repr

/-- What a generated identifier was generated for (ghost bookkeeping). -/
inductive AllocKind where
  | traceGen | decoExec | spanExec | objExec
  deriving DecidableEq, Repr

/-- Interpreter state: the ambient context, the fresh-id counter, the
`Traced` objects constructed so far, and the ghost allocation log. -/
structure St where
  ctx : Ctx
  fresh : Nat
  objs : List TObj
  allocs : List (Nat × AllocKind)
  deriving DecidableEq, Repr

/-- One statement of a single-threaded program of traced calls. -/
inductive Stmt where
  | deco (ovT ovP : Option Nat) (nm : String) (body : List Stmt)
      (fail : Option (String × String))
  | span (ovT ovP : Option Nat) (nm : String) (body : List Stmt)
      (fail : Option (String × String))
  | newObj (ovT ovP : Option Nat) (nm : String)
  | methCall (obj : Nat) (nm : String) (body : List Stmt)
      (fail : Option (String × String))

/-- The `finally` blocks: restore a context component only when the saved
previous value is truthy (`if previous_trace_id:` / `if previous_parent_id:`). -/
def restore (prev cur : Ctx) : Ctx :=
  ⟨match prev.traceId with
    | some t => some t
    | none => cur.traceId,
   match prev.parentId with
    | some p => some p
    | none => cur.parentId⟩

/-- Draw a fresh identifier for the given purpose. -/
def gen (k : AllocKind) (st : St) : Nat × St :=
  (st.fresh, { st with fresh := st.fresh + 1, allocs := st.allocs ++ [(st.fresh, k)] })

/-- `data` of a terminal event that carries an error. -/
def errData (e : String × String) : EvData :=
  { error := some e.1, errType := some e.2 }

mutual

/-- Execute one statement.  Returns the final state, the list of events it
caused to be saved (in emission order), and `some err` when the statement
raised / propagated the exception `err`. -/
def execStmt (enc : Option (Nat × Nat)) (s : Stmt) (st : St) :
    St × List GEvent × Option (String × String) :=
  match s with
  | .newObj ovT ovP nm =>
    -- self.trace_id = trace_id or current_trace_id or self._generate_id()
    let (t, st1) :=
      match ovT.or st.ctx.traceId with
      | some t => (t, st)
      | none => gen .traceGen st
    -- parent_id: explicit, else ambient parent when an ambient trace exists
    let parent : Option Nat :=
      match ovP with
      | some p => some p
      | none =>
        if st.ctx.traceId.isSome && st.ctx.parentId.isSome then st.ctx.parentId else none
    let (ex, st2) := gen .objExec st1
    ({ st2 with objs := st2.objs ++ [⟨t, parent, ex, nm⟩] }, [], none)
  | .deco ovT ovP nm body fail =>
    -- trace = trace_id or current_trace_id or str(uuid.uuid4())
    let (t, st1) :=
      match ovT.or st.ctx.traceId with
      | some t => (t, st)
      | none => gen .traceGen st
    let (ex, st2) := gen .decoExec st1
    -- parent = parent_id or current_parent_id
    let parent := ovP.or st.ctx.parentId
    let prev := st.ctx
    let st3 := { st2 with ctx := ⟨some t, some ex⟩ }
    let g : Ghost := ⟨.deco, enc, ovT.isSome, ovP.isSome⟩
    let startEv : GEvent :=
      ⟨⟨t, ex, parent, nm, "function", "start", { hasArgs := true, hasKwargs := true }⟩, g⟩
    let res := execList (some (t, ex)) body st3
    let err := res.2.2.or fail
    let endEv : GEvent :=
      match err with
      | some e => ⟨⟨t, ex, parent, nm, "function", "error", errData e⟩, g⟩
      | none => ⟨⟨t, ex, parent, nm, "function", "end", { hasResult := true }⟩, g⟩
    ({ res.1 with ctx := restore prev res.1.ctx }, startEv :: res.2.1 ++ [endEv], err)
  | .span ovT ovP nm body fail =>
    let (t, st1) :=
      match ovT.or st.ctx.traceId with
      | some t => (t, st)
      | none => gen .traceGen st
    let parent := ovP.or st.ctx.parentId
    let (ex, st2) := gen .spanExec st1
    let prev := st.ctx
    let st3 := { st2 with ctx := ⟨some t, some ex⟩ }
    let g : Ghost := ⟨.span, enc, ovT.isSome, ovP.isSome⟩
    let startEv : GEvent :=
      ⟨⟨t, ex, parent, nm, "span", "start", { hasAttributes := true }⟩, g⟩
    let res := execList (some (t, ex)) body st3
    let err := res.2.2.or fail
    -- TracedSpan.__exit__ always emits an "end" event; error info goes in data
    let endEv : GEvent :=
      match err with
      | some e => ⟨⟨t, ex, parent, nm, "span", "end", errData e⟩, g⟩
      | none => ⟨⟨t, ex, parent, nm, "span", "end", {}⟩, g⟩
    ({ res.1 with ctx := restore prev res.1.ctx }, startEv :: res.2.1 ++ [endEv], err)
  | .methCall i nm body fail =>
    match st.objs[i]? with
    | none => (st, [], none)
    | some obj =>
      let prev := st.ctx
      let st1 := { st with ctx := ⟨some obj.traceId, some obj.executionId⟩ }
      let g : Ghost := ⟨.meth, enc, false, false⟩
      let startEv : GEvent :=
        ⟨⟨obj.traceId, obj.executionId, obj.parentId, obj.name, nm, "start",
          { hasArgs := true, hasKwargs := true }⟩, g⟩
      let res := execList (some (obj.traceId, obj.executionId)) body st1
      let err := res.2.2.or fail
      -- Traced._end_trace always emits event_type "end"; error info goes in data
      let endEv : GEvent :=
        match err with
        | some e => ⟨⟨obj.traceId, obj.executionId, obj.parentId, obj.name, nm, "end",
            errData e⟩, g⟩
        | none => ⟨⟨obj.traceId, obj.executionId, obj.parentId, obj.name, nm, "end",
            { hasResult := true }⟩, g⟩
      ({ res.1 with ctx := restore prev res.1.ctx }, startEv :: res.2.1 ++ [endEv], err)

/-- Execute statements in order; an exception aborts the rest of the block
and propagates. -/
def execList (enc : Option (Nat × Nat)) (ss : List Stmt) (st : St) :
    St × List GEvent × Option (String × String) :=
  match ss with
  | [] => (st, [], none)
  | s :: rest =>
    let r1 := execStmt enc s st
    match r1.2.2 with
    | some e => (r1.1, r1.2.1, some e)
    | none =>
      let r2 := execList enc rest r1.1
      (r2.1, r1.2.1 ++ r2.2.1, r2.2.2)

end

/-- The state of a fresh thread of control: empty context, counter at 0. -/
def st0 : St := ⟨⟨none, none⟩, 0, [], []⟩

end Core

namespace Core

/-- If the ambient trace ID was set before a statement, it is exactly
restored after it: the `finally` guard `if previous_trace_id:` fires.  This
needs no induction — every wrapper's restore overwrites the component with
the saved previous value whenever that value was truthy. -/
theorem execStmt_ctx_traceId (enc : Option (Nat × Nat)) (s : Stmt) (st : St) (t : Nat)
    (h : st.ctx.traceId = some t) : (execStmt enc s st).1.ctx.traceId = some t := by
  cases s with
  | newObj ovT ovP nm =>
    simp only [execStmt]
    split <;> simp [gen, h]
  | deco ovT ovP nm body fail =>
    simp only [execStmt]
    split <;> simp [restore, gen, h]
  | span ovT ovP nm body fail =>
    simp only [execStmt]
    split <;> simp [restore, gen, h]
  | methCall i nm body fail =>
    simp only [execStmt]
    cases hobj : st.objs[i]? with
    | none => simp [h]
    | some obj => simp [restore, h]

/-- Same for the ambient parent ID: restored exactly whenever it was set. -/
theorem execStmt_ctx_parentId (enc : Option (Nat × Nat)) (s : Stmt) (st : St) (p : Nat)
    (h : st.ctx.parentId = some p) : (execStmt enc s st).1.ctx.parentId = some p := by
  cases s with
  | newObj ovT ovP nm =>
    simp only [execStmt]
    split <;> simp [gen, h]
  | deco ovT ovP nm body fail =>
    simp only [execStmt]
    split <;> simp [restore, gen, h]
  | span ovT ovP nm body fail =>
    simp only [execStmt]
    split <;> simp [restore, gen, h]
  | methCall i nm body fail =>
    simp only [execStmt]
    cases hobj : st.objs[i]? with
    | none => simp [h]
    | some obj => simp [restore, h]

/-- A fully-set context is preserved exactly by any statement. -/
theorem execStmt_ctx (enc : Option (Nat × Nat)) (s : Stmt) (st : St) (T E : Nat)
    (h : st.ctx = ⟨some T, some E⟩) : (execStmt enc s st).1.ctx = ⟨some T, some E⟩ := by
  have h1 := execStmt_ctx_traceId enc s st T (by rw [h])
  have h2 := execStmt_ctx_parentId enc s st E (by rw [h])
  cases hc : (execStmt enc s st).1.ctx with
  | mk a b => rw [hc] at h1 h2; simp_all

end Core

/-- C2 (amended): for every traced call in any binding mode, a context
component that was **set** before the call is restored exactly on every exit
path, normal or raising.  (The claim's further case of a previously-unset
(`None`) component is refuted by `C2_counterexample`: the truthiness-guarded
restore skips it and the call's own identifiers leak.) -/
theorem C2_restores_set_context (enc : Option (Nat × Nat)) (s : Core.Stmt) (st : Core.St) :
    (∀ t : Nat, st.ctx.traceId = some t → (Core.execStmt enc s st).1.ctx.traceId = some t) ∧
      (∀ p : Nat, st.ctx.parentId = some p →
        (Core.execStmt enc s st).1.ctx.parentId = some p) :=
  ⟨fun t h => Core.execStmt_ctx_traceId enc s st t h,
   fun p h => Core.execStmt_ctx_parentId enc s st p h⟩

/-- Witness for `C2_restores_set_context`: a concrete raising decorator call
entered with ambient context (5, 7) leaves exactly (5, 7) behind. -/
theorem C2_restores_set_context_witness :
    (Core.execStmt none (Core.Stmt.deco none none "f" [] (some ("e", "E")))
        ⟨⟨some 5, some 7⟩, 9, [], []⟩).1.ctx = ⟨some 5, some 7⟩ := by
  have h := C2_restores_set_context none (Core.Stmt.deco none none "f" [] (some ("e", "E")))
    ⟨⟨some 5, some 7⟩, 9, [], []⟩
  have h1 := h.1 5 rfl
  have h2 := h.2 7 rfl
  cases hc : (Core.execStmt none (Core.Stmt.deco none none "f" [] (some ("e", "E")))
      ⟨⟨some 5, some 7⟩, 9, [], []⟩).1.ctx with
  | mk a b => rw [hc] at h1 h2; simp_all

/-- C2 counterexample: the claim as stated — restoration also when the prior
value was unset (`None`) — is false.  A root decorator call entered with an
empty ambient context exits leaving its own trace ID (and parent ID) behind
instead of restoring `None`. -/
theorem C2_counterexample :
    Core.st0.ctx.traceId = none ∧
      (Core.execStmt none (Core.Stmt.deco none none "f" [] none) Core.st0).1.ctx.traceId
        = some 0 ∧
      (Core.execStmt none (Core.Stmt.deco none none "f" [] none) Core.st0).1.ctx.parentId
        = some 1 := by
  exact ⟨rfl, rfl, rfl⟩

namespace Core

/-- Nesting correctness of one ghost-annotated event: if it was emitted by a
decorator or span call carrying no explicit overrides, and that call had a
direct enclosing traced call `(T, E)`, then the event is stamped with the
enclosing trace ID `T` and with parent execution ID `E`. -/
def Good (g : GEvent) : Prop :=
  ∀ T E : Nat, g.ghost.enc = some (T, E) →
    (g.ghost.mode = Mode.deco ∨ g.ghost.mode = Mode.span) →
    g.ghost.ovT = false → g.ghost.ovP = false →
    g.ev.traceId = T ∧ g.ev.parentId = some E

mutual

theorem goodStmt (enc : Option (Nat × Nat)) (s : Stmt) (st : St)
    (hinv : ∀ T E : Nat, enc = some (T, E) → st.ctx = ⟨some T, some E⟩) :
    ∀ g ∈ (execStmt enc s st).2.1, Good g := by
  cases s with
  | newObj ovT ovP nm =>
    intro g hg
    rcases hov : ovT.or st.ctx.traceId with _ | t0 <;>
      simp only [execStmt, hov, gen] at hg <;> simp at hg
  | deco ovT ovP nm body fail =>
    intro g hg
    rcases hov : ovT.or st.ctx.traceId with _ | t0
    · simp only [execStmt, hov, gen] at hg
      rcases List.mem_cons.mp hg with hg | hg
      · subst hg
        intro T E henc _ hovT hovP
        have hctx := hinv T E (henc : enc = some (T, E))
        rw [hctx] at hov
        cases ovT <;> simp [Option.or] at hov
      · rcases List.mem_append.mp hg with hg | hg
        · refine goodList _ body _ ?_ g hg
          intro T E h
          injection h with h1
          injection h1 with ha hb
          subst ha; subst hb; rfl
        · rw [List.mem_singleton] at hg
          split at hg <;>
          · subst hg
            intro T E henc _ hovT hovP
            have hctx := hinv T E (henc : enc = some (T, E))
            rw [hctx] at hov
            cases ovT <;> simp [Option.or] at hov
    · simp only [execStmt, hov, gen] at hg
      rcases List.mem_cons.mp hg with hg | hg
      · subst hg
        intro T E henc _ hovT hovP
        have hctx := hinv T E (henc : enc = some (T, E))
        have hT : ovT = none := Option.not_isSome_iff_eq_none.mp (by
          simpa using (hovT : ovT.isSome = false))
        have hP : ovP = none := Option.not_isSome_iff_eq_none.mp (by
          simpa using (hovP : ovP.isSome = false))
        subst hT; subst hP
        rw [hctx] at hov
        simp [Option.or] at hov
        refine ⟨?_, ?_⟩ <;> simp [hctx, Option.or, hov]
      · rcases List.mem_append.mp hg with hg | hg
        · refine goodList _ body _ ?_ g hg
          intro T E h
          injection h with h1
          injection h1 with ha hb
          subst ha; subst hb; rfl
        · rw [List.mem_singleton] at hg
          split at hg <;>
          · subst hg
            intro T E henc _ hovT hovP
            have hctx := hinv T E (henc : enc = some (T, E))
            have hT : ovT = none := Option.not_isSome_iff_eq_none.mp (by
              simpa using (hovT : ovT.isSome = false))
            have hP : ovP = none := Option.not_isSome_iff_eq_none.mp (by
              simpa using (hovP : ovP.isSome = false))
            subst hT; subst hP
            rw [hctx] at hov
            simp [Option.or] at hov
            refine ⟨?_, ?_⟩ <;> simp [hctx, Option.or, hov]
  | span ovT ovP nm body fail =>
    intro g hg
    rcases hov : ovT.or st.ctx.traceId with _ | t0
    · simp only [execStmt, hov, gen] at hg
      rcases List.mem_cons.mp hg with hg | hg
      · subst hg
        intro T E henc _ hovT hovP
        have hctx := hinv T E (henc : enc = some (T, E))
        rw [hctx] at hov
        cases ovT <;> simp [Option.or] at hov
      · rcases List.mem_append.mp hg with hg | hg
        · refine goodList _ body _ ?_ g hg
          intro T E h
          injection h with h1
          injection h1 with ha hb
          subst ha; subst hb; rfl
        · rw [List.mem_singleton] at hg
          split at hg <;>
          · subst hg
            intro T E henc _ hovT hovP
            have hctx := hinv T E (henc : enc = some (T, E))
            rw [hctx] at hov
            cases ovT <;> simp [Option.or] at hov
    · simp only [execStmt, hov, gen] at hg
      rcases List.mem_cons.mp hg with hg | hg
      · subst hg
        intro T E henc _ hovT hovP
        have hctx := hinv T E (henc : enc = some (T, E))
        have hT : ovT = none := Option.not_isSome_iff_eq_none.mp (by
          simpa using (hovT : ovT.isSome = false))
        have hP : ovP = none := Option.not_isSome_iff_eq_none.mp (by
          simpa using (hovP : ovP.isSome = false))
        subst hT; subst hP
        rw [hctx] at hov
        simp [Option.or] at hov
        refine ⟨?_, ?_⟩ <;> simp [hctx, Option.or, hov]
      · rcases List.mem_append.mp hg with hg | hg
        · refine goodList _ body _ ?_ g hg
          intro T E h
          injection h with h1
          injection h1 with ha hb
          subst ha; subst hb; rfl
        · rw [List.mem_singleton] at hg
          split at hg <;>
          · subst hg
            intro T E henc _ hovT hovP
            have hctx := hinv T E (henc : enc = some (T, E))
            have hT : ovT = none := Option.not_isSome_iff_eq_none.mp (by
              simpa using (hovT : ovT.isSome = false))
            have hP : ovP = none := Option.not_isSome_iff_eq_none.mp (by
              simpa using (hovP : ovP.isSome = false))
            subst hT; subst hP
            rw [hctx] at hov
            simp [Option.or] at hov
            refine ⟨?_, ?_⟩ <;> simp [hctx, Option.or, hov]
  | methCall i nm body fail =>
    intro g hg
    cases hobj : st.objs[i]? with
    | none => simp only [execStmt, hobj] at hg; simp at hg
    | some obj =>
      simp only [execStmt, hobj] at hg
      rcases List.mem_cons.mp hg with hg | hg
      · subst hg
        intro T E _ hmode _ _
        rcases hmode with h | h <;> exact absurd (h : Mode.meth = _) (by simp)
      · rcases List.mem_append.mp hg with hg | hg
        · refine goodList _ body _ ?_ g hg
          intro T E h
          injection h with h1
          injection h1 with ha hb
          subst ha; subst hb; rfl
        · rw [List.mem_singleton] at hg
          split at hg <;>
          · subst hg
            intro T E _ hmode _ _
            rcases hmode with h | h <;> exact absurd (h : Mode.meth = _) (by simp)

theorem goodList (enc : Option (Nat × Nat)) (ss : List Stmt) (st : St)
    (hinv : ∀ T E : Nat, enc = some (T, E) → st.ctx = ⟨some T, some E⟩) :
    ∀ g ∈ (execList enc ss st).2.1, Good g := by
  cases ss with
  | nil => intro g hg; simp [execList] at hg
  | cons s rest =>
    intro g hg
    simp only [execList] at hg
    cases herr : (execStmt enc s st).2.2 with
    | some e =>
      rw [herr] at hg
      exact goodStmt enc s st hinv g hg
    | none =>
      rw [herr] at hg
      rcases List.mem_append.mp hg with hg | hg
      · exact goodStmt enc s st hinv g hg
      · exact goodList enc rest (execStmt enc s st).1
          (fun T E h => execStmt_ctx enc s st T E (hinv T E h)) g hg

end

end Core

/-- C1 (amended): on one logical thread, every event emitted by a nested
**decorator or span** call without explicit `trace_id`/`parent_id` overrides
carries `parentExecutionID` equal to the `executionID` of its direct
enclosing traced call and the enclosing call's `traceID` (so an unbroken
chain of such calls shares one `traceID`).  `Traced`-class method calls are
excluded: they stamp the identifiers frozen at object construction time
(see `C1_counterexample`). -/
theorem C1_nested_calls_linked (ss : List Core.Stmt) (st : Core.St) (g : Core.GEvent)
    (hg : g ∈ (Core.execList none ss st).2.1)
    (T E : Nat) (henc : g.ghost.enc = some (T, E))
    (hmode : g.ghost.mode = Core.Mode.deco ∨ g.ghost.mode = Core.Mode.span)
    (hovT : g.ghost.ovT = false) (hovP : g.ghost.ovP = false) :
    g.ev.traceId = T ∧ g.ev.parentId = some E :=
  Core.goodList none ss st (fun _ _ h => by cases h) g hg T E henc hmode hovT hovP

/-- Witness for `C1_nested_calls_linked`: in the run of a decorator call `f`
with a nested decorator call `g`, the nested call's start event (index 1 of
the log) is enclosed by `f` (trace 0, execution 1) and indeed carries
`traceId = 0` and `parentId = some 1`. -/
theorem C1_nested_calls_linked_witness :
    ((Core.execList none
        [Core.Stmt.deco none none "f" [Core.Stmt.deco none none "g" [] none] none]
        Core.st0).2.1.get ⟨1, by decide⟩).ev.traceId = 0 ∧
      ((Core.execList none
        [Core.Stmt.deco none none "f" [Core.Stmt.deco none none "g" [] none] none]
        Core.st0).2.1.get ⟨1, by decide⟩).ev.parentId = some 1 :=
  C1_nested_calls_linked _ Core.st0 _ (List.get_mem _ _ _) 0 1
    (by decide) (by decide) (by decide) (by decide)

/-- C1 counterexample: the claim as stated fails for `Traced`-class method
calls.  A `Traced` object `A` constructed at top level (trace 0, execution 1,
parent `None`) has a method invoked inside a decorator call `f` (trace 2,
execution 3).  The method call is a non-root traced call whose direct
enclosing call is `f` — its ghost records the enclosing pair (2, 3) — yet
its events carry `parentId = none` (not `some 3`) and `traceId = 0`
(not the enclosing chain's 2). -/
theorem C1_counterexample :
    (((Core.execList none
        [Core.Stmt.newObj none none "A",
         Core.Stmt.deco none none "f" [Core.Stmt.methCall 0 "m" [] none] none]
        Core.st0).2.1.get ⟨1, by decide⟩).ghost.enc = some (2, 3)) ∧
      (((Core.execList none
        [Core.Stmt.newObj none none "A",
         Core.Stmt.deco none none "f" [Core.Stmt.methCall 0 "m" [] none] none]
        Core.st0).2.1.get ⟨1, by decide⟩).ev.parentId = none) ∧
      (((Core.execList none
        [Core.Stmt.newObj none none "A",
         Core.Stmt.deco none none "f" [Core.Stmt.methCall 0 "m" [] none] none]
        Core.st0).2.1.get ⟨1, by decide⟩).ev.traceId = 0) := by
  decide

/-- C3 (amended): when a traced operation raises error `(m, k)`, every
binding mode records the error message `m` and error-kind label `k` and
re-propagates the original error; but only the **function decorator** emits
an event with `eventType = "error"`.  The `Traced` class and spans emit
their terminal event with `eventType = "end"` carrying the error data
(see `C3_counterexample`).  Stated for leaf calls (empty body). -/
theorem C3_error_events_by_mode :
    (∀ (enc : Option (Nat × Nat)) (st : Core.St) (ovT ovP : Option Nat) (nm m k : String),
      (Core.execStmt enc (Core.Stmt.deco ovT ovP nm [] (some (m, k))) st).2.2 = some (m, k) ∧
        ((Core.execStmt enc (Core.Stmt.deco ovT ovP nm [] (some (m, k))) st).2.1.map
            (fun g => (g.ev.eventType, g.ev.data.error, g.ev.data.errType))) =
          [("start", none, none), ("error", some m, some k)]) ∧
    (∀ (enc : Option (Nat × Nat)) (st : Core.St) (ovT ovP : Option Nat) (nm m k : String),
      (Core.execStmt enc (Core.Stmt.span ovT ovP nm [] (some (m, k))) st).2.2 = some (m, k) ∧
        ((Core.execStmt enc (Core.Stmt.span ovT ovP nm [] (some (m, k))) st).2.1.map
            (fun g => (g.ev.eventType, g.ev.data.error, g.ev.data.errType))) =
          [("start", none, none), ("end", some m, some k)]) ∧
    (∀ (enc : Option (Nat × Nat)) (st : Core.St) (i : Nat) (nm m k : String)
        (obj : Core.TObj), st.objs[i]? = some obj →
      (Core.execStmt enc (Core.Stmt.methCall i nm [] (some (m, k))) st).2.2 = some (m, k) ∧
        ((Core.execStmt enc (Core.Stmt.methCall i nm [] (some (m, k))) st).2.1.map
            (fun g => (g.ev.eventType, g.ev.data.error, g.ev.data.errType))) =
          [("start", none, none), ("end", some m, some k)]) := by
  refine ⟨?_, ?_, ?_⟩
  · intro enc st ovT ovP nm m k
    rcases hov : ovT.or st.ctx.traceId with _ | t0 <;>
      simp [Core.execStmt, Core.execList, Core.gen, Core.errData, hov, Option.or]
  · intro enc st ovT ovP nm m k
    rcases hov : ovT.or st.ctx.traceId with _ | t0 <;>
      simp [Core.execStmt, Core.execList, Core.gen, Core.errData, hov, Option.or]
  · intro enc st i nm m k obj hobj
    simp [Core.execStmt, Core.execList, Core.errData, hobj, Option.or]

/-- Witness for `C3_error_events_by_mode`: concrete leaf calls of each mode
raising `("boom", "ValueError")` from the fresh state. -/
theorem C3_error_events_by_mode_witness :
    ((Core.execStmt none (Core.Stmt.deco none none "f" []
        (some ("boom", "ValueError"))) Core.st0).2.1.map
        (fun g => (g.ev.eventType, g.ev.data.error, g.ev.data.errType))) =
      [("start", none, none), ("error", some "boom", some "ValueError")] ∧
    ((Core.execStmt none (Core.Stmt.methCall 0 "m" [] (some ("boom", "ValueError")))
        ⟨⟨none, none⟩, 5, [⟨0, none, 1, "A"⟩], []⟩).2.1.map
        (fun g => (g.ev.eventType, g.ev.data.error, g.ev.data.errType))) =
      [("start", none, none), ("end", some "boom", some "ValueError")] :=
  ⟨(C3_error_events_by_mode.1 none Core.st0 none none "f" "boom" "ValueError").2,
   (C3_error_events_by_mode.2.2 none ⟨⟨none, none⟩, 5, [⟨0, none, 1, "A"⟩], []⟩ 0 "m"
      "boom" "ValueError" ⟨0, none, 1, "A"⟩ rfl).2⟩

/-- C3 counterexample: a span whose body raises re-propagates the error but
emits **no** event with `eventType = "error"` — its terminal event has type
`"end"` — refuting the claim that every binding mode emits exactly one
`error`-typed event on failure. -/
theorem C3_counterexample :
    (Core.execStmt none (Core.Stmt.span none none "s" []
        (some ("boom", "ValueError"))) Core.st0).2.2 = some ("boom", "ValueError") ∧
      ((Core.execStmt none (Core.Stmt.span none none "s" []
          (some ("boom", "ValueError"))) Core.st0).2.1.filter
          (fun g => g.ev.eventType == "error")) = [] ∧
      ((Core.execStmt none (Core.Stmt.span none none "s" []
          (some ("boom", "ValueError"))) Core.st0).2.1.map
          (fun g => g.ev.eventType)) = ["start", "end"] := by
  decide

namespace Core

/-- Start events that witness a fresh execution-id draw: those of decorator
and span calls (method calls stamp their object's frozen id instead). -/
def isAllocStart (g : GEvent) : Bool :=
  (g.ghost.mode != Mode.meth) && (g.ev.eventType == "start")

/-- The execution ids of the decorator/span invocations in a log. -/
def startIds (log : List GEvent) : List Nat :=
  (log.filter isAllocStart).map (fun g => g.ev.executionId)

@[simp] theorem startIds_nil : startIds [] = [] := rfl

theorem startIds_cons (g : GEvent) (L : List GEvent) :
    startIds (g :: L) =
      if isAllocStart g then g.ev.executionId :: startIds L else startIds L := by
  simp only [startIds, List.filter_cons]
  split <;> simp_all

theorem startIds_append (L M : List GEvent) :
    startIds (L ++ M) = startIds L ++ startIds M := by
  simp [startIds, List.filter_append]

mutual

/-- Freshness invariant: a statement only emits decorator/span start events
whose execution ids lie inside the fresh-counter window it consumed, and
those ids are pairwise distinct. -/
theorem freshStmt (enc : Option (Nat × Nat)) (s : Stmt) (st : St) :
    st.fresh ≤ (execStmt enc s st).1.fresh ∧
      (∀ x ∈ startIds (execStmt enc s st).2.1,
        st.fresh ≤ x ∧ x < (execStmt enc s st).1.fresh) ∧
      (startIds (execStmt enc s st).2.1).Nodup := by
  cases s with
  | newObj ovT ovP nm =>
    rcases hov : ovT.or st.ctx.traceId with _ | t0 <;>
        (simp [execStmt, hov, gen, startIds]; try omega)
  | deco ovT ovP nm body fail =>
    rcases hov : ovT.or st.ctx.traceId with _ | t0
    · obtain ⟨ihm, ihw, ihn⟩ := freshList (some (st.fresh, st.fresh + 1)) body
        ⟨⟨some st.fresh, some (st.fresh + 1)⟩, st.fresh + 1 + 1, st.objs,
          st.allocs ++ [(st.fresh, AllocKind.traceGen), (st.fresh + 1, AllocKind.decoExec)]⟩
      dsimp only at ihm ihw ihn
      simp only [execStmt, hov, gen, List.append_assoc, List.cons_append, List.nil_append]
      refine ⟨?_, ?_, ?_⟩
      · omega
      · intro x hx
        split at hx <;>
        · simp [startIds_cons, startIds_append, isAllocStart] at hx
          rcases hx with rfl | h
          · constructor <;> omega
          · have := ihw x h
            constructor <;> omega
      · split <;>
        · simp [startIds_cons, startIds_append, isAllocStart, List.nodup_cons]
          exact ⟨fun hmem => by have := ihw _ hmem; omega, ihn⟩
    · obtain ⟨ihm, ihw, ihn⟩ := freshList (some (t0, st.fresh)) body
        ⟨⟨some t0, some st.fresh⟩, st.fresh + 1, st.objs,
          st.allocs ++ [(st.fresh, AllocKind.decoExec)]⟩
      dsimp only at ihm ihw ihn
      simp only [execStmt, hov, gen, List.append_assoc, List.cons_append, List.nil_append]
      refine ⟨?_, ?_, ?_⟩
      · omega
      · intro x hx
        split at hx <;>
        · simp [startIds_cons, startIds_append, isAllocStart] at hx
          rcases hx with rfl | h
          · constructor <;> omega
          · have := ihw x h
            constructor <;> omega
      · split <;>
        · simp [startIds_cons, startIds_append, isAllocStart, List.nodup_cons]
          exact ⟨fun hmem => by have := ihw _ hmem; omega, ihn⟩
  | span ovT ovP nm body fail =>
    rcases hov : ovT.or st.ctx.traceId with _ | t0
    · obtain ⟨ihm, ihw, ihn⟩ := freshList (some (st.fresh, st.fresh + 1)) body
        ⟨⟨some st.fresh, some (st.fresh + 1)⟩, st.fresh + 1 + 1, st.objs,
          st.allocs ++ [(st.fresh, AllocKind.traceGen), (st.fresh + 1, AllocKind.spanExec)]⟩
      dsimp only at ihm ihw ihn
      simp only [execStmt, hov, gen, List.append_assoc, List.cons_append, List.nil_append]
      refine ⟨?_, ?_, ?_⟩
      · omega
      · intro x hx
        split at hx <;>
        · simp [startIds_cons, startIds_append, isAllocStart] at hx
          rcases hx with rfl | h
          · constructor <;> omega
          · have := ihw x h
            constructor <;> omega
      · split <;>
        · simp [startIds_cons, startIds_append, isAllocStart, List.nodup_cons]
          exact ⟨fun hmem => by have := ihw _ hmem; omega, ihn⟩
    · obtain ⟨ihm, ihw, ihn⟩ := freshList (some (t0, st.fresh)) body
        ⟨⟨some t0, some st.fresh⟩, st.fresh + 1, st.objs,
          st.allocs ++ [(st.fresh, AllocKind.spanExec)]⟩
      dsimp only at ihm ihw ihn
      simp only [execStmt, hov, gen, List.append_assoc, List.cons_append, List.nil_append]
      refine ⟨?_, ?_, ?_⟩
      · omega
      · intro x hx
        split at hx <;>
        · simp [startIds_cons, startIds_append, isAllocStart] at hx
          rcases hx with rfl | h
          · constructor <;> omega
          · have := ihw x h
            constructor <;> omega
      · split <;>
        · simp [startIds_cons, startIds_append, isAllocStart, List.nodup_cons]
          exact ⟨fun hmem => by have := ihw _ hmem; omega, ihn⟩
  | methCall i nm body fail =>
    cases hobj : st.objs[i]? with
    | none => simp [execStmt, hobj, startIds]
    | some obj =>
      obtain ⟨ihm, ihw, ihn⟩ := freshList (some (obj.traceId, obj.executionId)) body
        ⟨⟨some obj.traceId, some obj.executionId⟩, st.fresh, st.objs, st.allocs⟩
      dsimp only at ihm ihw ihn
      simp only [execStmt, hobj]
      refine ⟨?_, ?_, ?_⟩
      · exact ihm
      · intro x hx
        split at hx <;>
        · simp [startIds_cons, startIds_append, isAllocStart] at hx
          exact ihw x hx
      · split <;>
        · simp [startIds_cons, startIds_append, isAllocStart]
          exact ihn

theorem freshList (enc : Option (Nat × Nat)) (ss : List Stmt) (st : St) :
    st.fresh ≤ (execList enc ss st).1.fresh ∧
      (∀ x ∈ startIds (execList enc ss st).2.1,
        st.fresh ≤ x ∧ x < (execList enc ss st).1.fresh) ∧
      (startIds (execList enc ss st).2.1).Nodup := by
  cases ss with
  | nil => simp [execList, startIds]
  | cons s rest =>
    obtain ⟨m1, w1, n1⟩ := freshStmt enc s st
    obtain ⟨m2, w2, n2⟩ := freshList enc rest (execStmt enc s st).1
    simp only [execList]
    cases herr : (execStmt enc s st).2.2 with
    | some e => simp only [herr]; exact ⟨m1, w1, n1⟩
    | none =>
      simp only [herr]
      rw [startIds_append]
      refine ⟨Nat.le_trans m1 m2, ?_, ?_⟩
      · intro x hx
        rcases List.mem_append.mp hx with h | h
        · have := w1 x h; omega
        · have := w2 x h; omega
      · refine List.Nodup.append n1 n2 ?_
        intro x hx hx'
        have h1 := w1 x hx
        have h2 := w2 x hx'
        omega

end

end Core

/-- C4 (amended): the function decorator and spans draw a fresh
`executionID` per invocation — across any program run, the execution ids of
all decorator/span invocations are pairwise distinct — but the `Traced`
class draws one `executionID` per object instance in `__init__`, so every
method call on that instance stamps that same id on all of its events
(second conjunct; `C4_counterexample` shows two successive method calls of
one object sharing an id). -/
theorem C4_execution_id_allocation :
    (∀ (enc : Option (Nat × Nat)) (ss : List Core.Stmt) (st : Core.St),
        (Core.startIds (Core.execList enc ss st).2.1).Nodup) ∧
      (∀ (enc : Option (Nat × Nat)) (st : Core.St) (i : Nat) (nm : String)
          (fail : Option (String × String)) (obj : Core.TObj), st.objs[i]? = some obj →
        ((Core.execStmt enc (Core.Stmt.methCall i nm [] fail) st).2.1.map
            (fun g => g.ev.executionId)) = [obj.executionId, obj.executionId]) := by
  constructor
  · intro enc ss st
    exact (Core.freshList enc ss st).2.2
  · intro enc st i nm fail obj hobj
    cases fail <;> simp [Core.execStmt, Core.execList, hobj, Core.errData, Option.or]

/-- Witness for `C4_execution_id_allocation`: a run with two decorator calls
and a span yields pairwise-distinct invocation ids, and a concrete method
call on an object with execution id 1 stamps `[1, 1]` on its events. -/
theorem C4_execution_id_allocation_witness :
    (Core.startIds (Core.execList none
        [Core.Stmt.deco none none "f" [] none,
         Core.Stmt.deco none none "g" [] none,
         Core.Stmt.span none none "s" [] none] Core.st0).2.1).Nodup ∧
      ((Core.execStmt none (Core.Stmt.methCall 0 "m" [] none)
          ⟨⟨none, none⟩, 5, [⟨0, none, 1, "A"⟩], []⟩).2.1.map
          (fun g => g.ev.executionId)) = [1, 1] :=
  ⟨C4_execution_id_allocation.1 none
      [Core.Stmt.deco none none "f" [] none,
       Core.Stmt.deco none none "g" [] none,
       Core.Stmt.span none none "s" [] none] Core.st0,
   C4_execution_id_allocation.2 none ⟨⟨none, none⟩, 5, [⟨0, none, 1, "A"⟩], []⟩ 0 "m"
      none ⟨0, none, 1, "A"⟩ rfl⟩

/-- C4 counterexample: the claim as stated — a fresh `executionID` for
**every** invocation, in particular two distinct ids for two successive
method calls on one `Traced` instance — is false: both calls of the object's
methods stamp the object's single execution id 1, so all four events carry
id 1 and the start events' ids are not pairwise distinct. -/
theorem C4_counterexample :
    ((Core.execList none
        [Core.Stmt.newObj none none "A",
         Core.Stmt.methCall 0 "m1" [] none,
         Core.Stmt.methCall 0 "m2" [] none] Core.st0).2.1.map
        (fun g => g.ev.executionId)) = [1, 1, 1, 1] ∧
      ¬ (((Core.execList none
        [Core.Stmt.newObj none none "A",
         Core.Stmt.methCall 0 "m1" [] none,
         Core.Stmt.methCall 0 "m2" [] none] Core.st0).2.1.filter
          (fun g => g.ev.eventType == "start")).map (fun g => g.ev.executionId)).Nodup := by
  decide

/-! ## JSON-compatible payloads and their textual serialization

The `data`/`content` fields of events and artifacts are JSON-compatible
values (spec §6): string, number, boolean, null, ordered list, ordered
string-keyed map.  The SQLite backend stores them as `TEXT` produced by
Python's `json.dumps(...)` with its default options (separators `", "` and
`": "`, `ensure_ascii=True`) and re-reads them with `json.loads`
(src/traced/storage/sqlite.py, lines 92-117 and 171-194).

Text is a list of Unicode code points (`Nat`); Python strings contain only
Unicode scalar values — code points below 0x110000 that are not UTF-16
surrogates — captured by `okCp` / string well-formedness `wfStr`.  JSON
numbers are modelled by integers (`Int`), whose `json.dumps`/`json.loads`
round trip through decimal text is exact in Python as well. -/

namespace Json

/-- A JSON-compatible value. -/
inductive J where
  | str (s : List Nat)
  | num (n : Int)
  | bool (b : Bool)
  | null
  | arr (vs : List J)
  | obj (kvs : List (List Nat × J))
  deriving Repr

/-- A Unicode scalar value: what one element of a Python `str` can be. -/
def okCp (c : Nat) : Bool :=
  decide (c < 1114112) && !(decide (55296 ≤ c) && decide (c ≤ 57343))

/-- All code points of a string are Unicode scalar values. -/
def wfStr (s : List Nat) : Bool := s.all okCp

mutual

/-- Well-formedness of a JSON value: every string in it is a Python string. -/
def wf : J → Bool
  | .str s => wfStr s
  | .num _ => true
  | .bool _ => true
  | .null => true
  | .arr vs => wfArr vs
  | .obj kvs => wfObj kvs

def wfArr : List J → Bool
  | [] => true
  | v :: vs => wf v && wfArr vs

def wfObj : List (List Nat × J) → Bool
  | [] => true
  | (k, v) :: kvs => wfStr k && wf v && wfObj kvs

end

/-- Lowercase hexadecimal digit (as a code point), as `'%04x'` produces. -/
def hexDigit (n : Nat) : Nat := if n < 10 then 48 + n else 87 + n

/-- Four lowercase hex digits of `n < 0x10000`. -/
def hex4 (n : Nat) : List Nat :=
  [hexDigit (n / 4096 % 16), hexDigit (n / 256 % 16), hexDigit (n / 16 % 16), hexDigit (n % 16)]

/-- `json.dumps` escaping of one character (default `ensure_ascii=True`):
the two-character escapes of `ESCAPE_DCT`, `\uXXXX` for other control and
non-ASCII characters (a surrogate pair above the BMP), else the character
itself. -/
def escChar (c : Nat) : List Nat :=
  if c = 34 then [92, 34]
  else if c = 92 then [92, 92]
  else if c = 8 then [92, 98]
  else if c = 12 then [92, 102]
  else if c = 10 then [92, 110]
  else if c = 13 then [92, 114]
  else if c = 9 then [92, 116]
  else if c < 32 ∨ c > 126 then
    if c ≤ 65535 then 92 :: 117 :: hex4 c
    else (92 :: 117 :: hex4 (55296 + (c - 65536) / 1024)) ++
      (92 :: 117 :: hex4 (56320 + (c - 65536) % 1024))
  else [c]

def escList (s : List Nat) : List Nat := s.flatMap escChar

/-- A rendered JSON string literal: `"` body `"`. -/
def renderStr (s : List Nat) : List Nat := 34 :: (escList s ++ [34])

/-- Decimal digits of a natural (fuel-indexed worker; any fuel above the
value itself is enough, since `n / 10 < n` for `n ≥ 10`). -/
def natCharsAux : Nat → Nat → List Nat
  | 0, _ => []
  | fuel + 1, n =>
      if n < 10 then [48 + n] else natCharsAux fuel (n / 10) ++ [48 + n % 10]

/-- Decimal digits of a natural, as `str(int)` prints them. -/
def natChars (n : Nat) : List Nat := natCharsAux (n + 1) n

theorem natCharsAux_congr : ∀ f g n, n < f → n < g →
    natCharsAux f n = natCharsAux g n := by
  intro f
  induction f with
  | zero => intro g n h; omega
  | succ f ih =>
      intro g n hf hg
      cases g with
      | zero => omega
      | succ g =>
          by_cases h10 : n < 10
          · simp [natCharsAux, h10]
          · simp only [natCharsAux, if_neg h10]
            rw [ih g (n / 10) (by omega) (by omega)]

theorem natChars_eq (n : Nat) : natChars n =
    if n < 10 then [48 + n] else natChars (n / 10) ++ [48 + n % 10] := by
  by_cases h10 : n < 10
  · rw [if_pos h10]; simp [natChars, natCharsAux, h10]
  · rw [if_neg h10]
    show natCharsAux (n + 1) n = natChars (n / 10) ++ [48 + n % 10]
    rw [natCharsAux, if_neg h10,
      natCharsAux_congr n (n / 10 + 1) (n / 10) (by omega) (by omega)]
    rfl

/-- `str(int)`: optional minus sign followed by decimal digits. -/
def intChars (i : Int) : List Nat :=
  if i < 0 then 45 :: natChars (-i).toNat else natChars i.toNat

mutual

/-- `json.dumps` with default options, over code points. -/
def render : J → List Nat
  | .str s => renderStr s
  | .num i => intChars i
  | .bool true => [116, 114, 117, 101]
  | .bool false => [102, 97, 108, 115, 101]
  | .null => [110, 117, 108, 108]
  | .arr [] => [91, 93]
  | .arr (v :: vs) => 91 :: (render v ++ renderItems vs ++ [93])
  | .obj [] => [123, 125]
  | .obj ((k, v) :: kvs) =>
    123 :: (renderStr k ++ 58 :: 32 :: (render v ++ renderMembers kvs ++ [125]))

/-- `", "`-separated rendering of the remaining array elements. -/
def renderItems : List J → List Nat
  | [] => []
  | v :: vs => 44 :: 32 :: (render v ++ renderItems vs)

/-- `", "`-separated rendering of the remaining object members. -/
def renderMembers : List (List Nat × J) → List Nat
  | [] => []
  | (k, v) :: kvs => 44 :: 32 :: (renderStr k ++ 58 :: 32 :: (render v ++ renderMembers kvs))

end

/-- JSON whitespace. -/
def isWsCp (c : Nat) : Bool := c = 32 || c = 10 || c = 9 || c = 13

def skipWs : List Nat → List Nat
  | [] => []
  | c :: cs => if isWsCp c then skipWs cs else c :: cs

def hexVal (c : Nat) : Option Nat :=
  if 48 ≤ c ∧ c ≤ 57 then some (c - 48)
  else if 97 ≤ c ∧ c ≤ 102 then some (c - 87)
  else if 65 ≤ c ∧ c ≤ 70 then some (c - 55)
  else none

/-- Read four hex digits, returning their value and the remaining input. -/
def readHex4 : List Nat → Option (Nat × List Nat)
  | a :: b :: c :: d :: rest =>
    match hexVal a, hexVal b, hexVal c, hexVal d with
    | some ha, some hb, some hc, some hd =>
      some (ha * 4096 + hb * 256 + hc * 16 + hd, rest)
    | _, _, _, _ => none
  | _ => none

/-- Final step of a `\\uXXXX` surrogate pair: accept a low surrogate and
combine it with the pending high surrogate `n`. -/
def pEscPair (n m : Nat) (cs5 : List Nat) : Option (Nat × List Nat) :=
  if 56320 ≤ m ∧ m ≤ 57343 then
    some ((n - 55296) * 1024 + (m - 56320) + 65536, cs5)
  else none

/-- After a high surrogate `n`: require `\\u` and four more hex digits. -/
def pEscLow (n : Nat) : List Nat → Option (Nat × List Nat)
  | p :: q :: cs4 =>
    if p = 92 ∧ q = 117 then (readHex4 cs4).bind (fun pr => pEscPair n pr.1 pr.2)
    else none
  | _ => none

/-- Interpret the value of a `\\uXXXX` escape: a non-surrogate stands for
itself; a high surrogate must be followed by a low one; a lone low
surrogate is rejected. -/
def pEscHex (n : Nat) (cs3 : List Nat) : Option (Nat × List Nat) :=
  if n < 55296 ∨ n > 57343 then some (n, cs3)
  else if n ≤ 56319 then pEscLow n cs3
  else none

/-- Decode one escape sequence (the part after the backslash), as
`json.loads` does: the short escapes of `ESCAPE_DCT` plus `\\uXXXX`. -/
def pEsc (cs : List Nat) : Option (Nat × List Nat) :=
  match cs with
  | [] => none
  | e :: cs2 =>
    if e = 34 then some (34, cs2)
    else if e = 92 then some (92, cs2)
    else if e = 47 then some (47, cs2)
    else if e = 98 then some (8, cs2)
    else if e = 102 then some (12, cs2)
    else if e = 110 then some (10, cs2)
    else if e = 114 then some (13, cs2)
    else if e = 116 then some (9, cs2)
    else if e = 117 then (readHex4 cs2).bind (fun pr => pEscHex pr.1 pr.2)
    else none

/-- Parse the body of a JSON string literal after the opening quote, up to
and including the closing quote (strict mode: raw control characters are
rejected).  Fuelled: each step consumes at least one input element, so fuel
exceeding the input length suffices. -/
def pStringBody : Nat → List Nat → Option (List Nat × List Nat)
  | 0, _ => none
  | _ + 1, [] => none
  | fuel + 1, c :: cs =>
    if c = 34 then some ([], cs)
    else if c = 92 then
      (pEsc cs).bind (fun d => (pStringBody fuel d.2).map (fun p => (d.1 :: p.1, p.2)))
    else if c < 32 then none
    else (pStringBody fuel cs).map (fun p => (c :: p.1, p.2))

/-- Parse a string literal body, with enough fuel for its input. -/
def pString (cs : List Nat) : Option (List Nat × List Nat) :=
  pStringBody (cs.length + 1) cs

def digitVal (c : Nat) : Option Nat :=
  if 48 ≤ c ∧ c ≤ 57 then some (c - 48) else none

/-- Consume a maximal run of decimal digits, accumulating their value. -/
def pDigits : List Nat → Nat → Nat × List Nat
  | [], acc => (acc, [])
  | c :: cs, acc =>
    match digitVal c with
    | some d => pDigits cs (acc * 10 + d)
    | none => (acc, c :: cs)

def headDigit : List Nat → Bool
  | [] => false
  | c :: _ => (digitVal c).isSome

def pNat (l : List Nat) : Option (Nat × List Nat) :=
  if headDigit l then some (pDigits l 0) else none

/-- Parse an (integer) JSON number: optional minus sign, then digits. -/
def pInt : List Nat → Option (Int × List Nat)
  | [] => none
  | c :: cs =>
    if c = 45 then (pNat cs).map (fun p => (-(p.1 : Int), p.2))
    else (pNat (c :: cs)).map (fun p => ((p.1 : Int), p.2))

/-- Expect the given literal word at the head of the input. -/
def stripWord : List Nat → List Nat → Option (List Nat)
  | [], l => some l
  | w :: ws, l =>
    match l with
    | [] => none
    | c :: cs => if c = w then stripWord ws cs else none

/-- After `[`: either `]` (empty array) or a first element then items. -/
def pArrTail (pv : List Nat → Option (J × List Nat))
    (pi : List Nat → Option (List J × List Nat)) :
    List Nat → Option (J × List Nat)
  | [] => none
  | d :: r =>
    if d = 93 then some (J.arr [], r)
    else (pv (d :: r)).bind (fun vr =>
      (pi vr.2).map (fun p => (J.arr (vr.1 :: p.1), p.2)))

/-- After `{`: either `}` (empty object) or a first member then members. -/
def pObjTail (pm : List Nat → Option ((List Nat × J) × List Nat))
    (pms : List Nat → Option (List (List Nat × J) × List Nat)) :
    List Nat → Option (J × List Nat)
  | [] => none
  | d :: r =>
    if d = 125 then some (J.obj [], r)
    else (pm (d :: r)).bind (fun kv =>
      (pms kv.2).map (fun p => (J.obj (kv.1 :: p.1), p.2)))

/-- One step of the value parser, over whitespace-stripped input, with the
recursive calls abstracted as continuations (they are instantiated with the
fuelled parsers below). -/
def pValueCore (pv : List Nat → Option (J × List Nat))
    (pi : List Nat → Option (List J × List Nat))
    (pm : List Nat → Option ((List Nat × J) × List Nat))
    (pms : List Nat → Option (List (List Nat × J) × List Nat)) :
    List Nat → Option (J × List Nat)
  | [] => none
  | c :: cs =>
    if c = 34 then (pString cs).map (fun p => (J.str p.1, p.2))
    else if c = 116 then (stripWord [114, 117, 101] cs).map (fun r => (J.bool true, r))
    else if c = 102 then (stripWord [97, 108, 115, 101] cs).map (fun r => (J.bool false, r))
    else if c = 110 then (stripWord [117, 108, 108] cs).map (fun r => (J.null, r))
    else if c = 91 then pArrTail pv pi (skipWs cs)
    else if c = 123 then pObjTail pm pms (skipWs cs)
    else (pInt (c :: cs)).map (fun p => (J.num p.1, p.2))

/-- After one array element: `]` ends the array, `,` continues it. -/
def pItemsCore (pv : List Nat → Option (J × List Nat))
    (pi : List Nat → Option (List J × List Nat)) :
    List Nat → Option (List J × List Nat)
  | [] => none
  | d :: r =>
    if d = 93 then some ([], r)
    else if d = 44 then
      (pv r).bind (fun vr => (pi vr.2).map (fun p => (vr.1 :: p.1, p.2)))
    else none

/-- After an object key: expect `:` then the value. -/
def pMemberColon (pv : List Nat → Option (J × List Nat)) (k : List Nat) :
    List Nat → Option ((List Nat × J) × List Nat)
  | [] => none
  | e :: r2 =>
    if e = 58 then (pv r2).map (fun p => ((k, p.1), p.2))
    else none

/-- One object member: a string key, `:`, a value. -/
def pMemberCore (pv : List Nat → Option (J × List Nat)) :
    List Nat → Option ((List Nat × J) × List Nat)
  | [] => none
  | d :: cs =>
    if d = 34 then
      (pString cs).bind (fun kr => pMemberColon pv kr.1 (skipWs kr.2))
    else none

/-- After one object member: `}` ends the object, `,` continues it. -/
def pMembersCore (pm : List Nat → Option ((List Nat × J) × List Nat))
    (pms : List Nat → Option (List (List Nat × J) × List Nat)) :
    List Nat → Option (List (List Nat × J) × List Nat)
  | [] => none
  | d :: r =>
    if d = 125 then some ([], r)
    else if d = 44 then
      (pm r).bind (fun kv => (pms kv.2).map (fun p => (kv.1 :: p.1, p.2)))
    else none

mutual

/-- Recursive-descent JSON value parser (`json.loads` on the fragment the
tracer produces), fuelled so recursion is structural. -/
def pValue : Nat → List Nat → Option (J × List Nat)
  | 0, _ => none
  | fuel + 1, l =>
    pValueCore (pValue fuel) (pItems fuel) (pMember fuel) (pMembers fuel) (skipWs l)

def pItems : Nat → List Nat → Option (List J × List Nat)
  | 0, _ => none
  | fuel + 1, l => pItemsCore (pValue fuel) (pItems fuel) (skipWs l)

def pMember : Nat → List Nat → Option ((List Nat × J) × List Nat)
  | 0, _ => none
  | fuel + 1, l => pMemberCore (pValue fuel) (skipWs l)

def pMembers : Nat → List Nat → Option (List (List Nat × J) × List Nat)
  | 0, _ => none
  | fuel + 1, l => pMembersCore (pMember fuel) (pMembers fuel) (skipWs l)

end

/-- `json.loads`: parse a value and require only whitespace to remain. -/
def jloads (l : List Nat) : Option J :=
  match pValue (l.length + 1) l with
  | some (v, r) => if skipWs r = [] then some v else none
  | none => none

mutual

/-- Recursion-depth measure: fuel at least `jsize v` lets the parser
consume a rendered `v` (the fuel bounds nesting depth, not size). -/
def jsize : J → Nat
  | .str _ => 1
  | .num _ => 1
  | .bool _ => 1
  | .null => 1
  | .arr vs => 1 + jsizeL vs
  | .obj kvs => 1 + jsizeM kvs

def jsizeL : List J → Nat
  | [] => 1
  | v :: vs => 1 + max (jsize v) (jsizeL vs)

def jsizeM : List (List Nat × J) → Nat
  | [] => 1
  | (_, v) :: kvs => 2 + max (jsize v) (jsizeM kvs)

end

end Json

namespace Json

theorem hexVal_hexDigit (k : Nat) (h : k < 16) : hexVal (hexDigit k) = some k := by
  rw [hexDigit]
  split
  · rw [hexVal, if_pos (by omega)]
    congr 1
    omega
  · rw [hexVal, if_neg (by omega), if_pos (by omega)]
    congr 1
    omega

theorem readHex4_hex4 (n : Nat) (h : n < 65536) (rest : List Nat) :
    readHex4 (hex4 n ++ rest) = some (n, rest) := by
  simp only [hex4, List.cons_append, List.nil_append, readHex4]
  rw [hexVal_hexDigit _ (Nat.mod_lt _ (by norm_num)),
      hexVal_hexDigit _ (Nat.mod_lt _ (by norm_num)),
      hexVal_hexDigit _ (Nat.mod_lt _ (by norm_num)),
      hexVal_hexDigit _ (Nat.mod_lt _ (by norm_num))]
  have : n / 4096 % 16 * 4096 + n / 256 % 16 * 256 + n / 16 % 16 * 16 + n % 16 = n := by
    omega
  simp [this]

/-- One parser step on a backslash: hand the tail to the escape decoder. -/
theorem pStringBody_backslash (fuel : Nat) (cs : List Nat) :
    pStringBody (fuel + 1) (92 :: cs) =
      (pEsc cs).bind
        (fun d => (pStringBody fuel d.2).map (fun p => (d.1 :: p.1, p.2))) := rfl

/-- The escape decoder on `u`: read four hex digits, then interpret them. -/
theorem pEsc_u (cs2 : List Nat) :
    pEsc (117 :: cs2) = (readHex4 cs2).bind (fun pr => pEscHex pr.1 pr.2) := rfl

set_option maxRecDepth 8192 in
/-- Decoding one escaped scalar value: one fuelled parser step. -/
theorem pStringBody_escChar (c : Nat) (hc : okCp c = true) (fuel : Nat) (rest : List Nat) :
    pStringBody (fuel + 1) (escChar c ++ rest) =
      (pStringBody fuel rest).map (fun p => (c :: p.1, p.2)) := by
  simp only [okCp, Bool.and_eq_true, decide_eq_true_eq, Bool.not_eq_true',
    Bool.and_eq_false_iff, decide_eq_false_iff_not, not_le] at hc
  by_cases h34 : c = 34
  · subst h34
    rfl
  by_cases h92 : c = 92
  · subst h92
    rfl
  by_cases h8 : c = 8
  · subst h8
    rfl
  by_cases h12 : c = 12
  · subst h12
    rfl
  by_cases h10 : c = 10
  · subst h10
    rfl
  by_cases h13 : c = 13
  · subst h13
    rfl
  by_cases h9 : c = 9
  · subst h9
    rfl
  by_cases hrange : c < 32 ∨ c > 126
  · rw [escChar, if_neg h34, if_neg h92, if_neg h8, if_neg h12, if_neg h10, if_neg h13,
      if_neg h9, if_pos hrange]
    by_cases hbmp : c ≤ 65535
    · rw [if_pos hbmp, List.cons_append, List.cons_append, pStringBody_backslash,
        pEsc_u, readHex4_hex4 c (by omega) rest]
      simp only [Option.some_bind]
      rw [pEscHex, if_pos (by omega : c < 55296 ∨ c > 57343)]
      simp only [Option.some_bind]
    · rw [if_neg hbmp]
      have hlo : 56320 + (c - 65536) % 1024 < 65536 := by omega
      have hhi : 55296 + (c - 65536) / 1024 < 65536 := by omega
      rw [List.append_assoc, List.cons_append, List.cons_append, pStringBody_backslash,
        pEsc_u, List.cons_append, List.cons_append, readHex4_hex4 _ hhi]
      rw [Option.some_bind]
      rw [pEscHex, if_neg (by omega : ¬(55296 + (c - 65536) / 1024 < 55296 ∨
            55296 + (c - 65536) / 1024 > 57343)),
        if_pos (by omega : 55296 + (c - 65536) / 1024 ≤ 56319),
        pEscLow, if_pos (⟨rfl, rfl⟩ : (92 : Nat) = 92 ∧ (117 : Nat) = 117),
        readHex4_hex4 _ hlo]
      rw [Option.some_bind]
      rw [pEscPair, if_pos (by omega : 56320 ≤ 56320 + (c - 65536) % 1024 ∧
            56320 + (c - 65536) % 1024 ≤ 57343)]
      rw [Option.some_bind]
      have hX : (55296 + (c - 65536) / 1024 - 55296) * 1024 +
          (56320 + (c - 65536) % 1024 - 56320) + 65536 = c := by omega
      rw [hX]
  · rw [escChar, if_neg h34, if_neg h92, if_neg h8, if_neg h12, if_neg h10, if_neg h13,
      if_neg h9, if_neg hrange, List.cons_append, List.nil_append, pStringBody,
      if_neg h34, if_neg h92, if_neg (by omega)]

/-- Decoding a fully escaped string body up to the closing quote. -/
theorem pStringBody_escList (s : List Nat) (hs : wfStr s = true) :
    ∀ fuel rest, s.length < fuel →
      pStringBody fuel (escList s ++ 34 :: rest) = some (s, rest) := by
  induction s with
  | nil =>
      intro fuel rest hf
      cases fuel with
      | zero => omega
      | succ f =>
          show pStringBody (f + 1) ([].flatMap escChar ++ 34 :: rest) = some ([], rest)
          rw [List.flatMap_nil, List.nil_append, pStringBody, if_pos rfl]
  | cons c cs ih =>
      intro fuel rest hf
      cases fuel with
      | zero => omega
      | succ f =>
          simp only [wfStr, List.all_cons, Bool.and_eq_true] at hs
          have hstep : escList (c :: cs) ++ 34 :: rest =
              escChar c ++ (escList cs ++ 34 :: rest) := by
            simp [escList, List.append_assoc]
          rw [hstep, pStringBody_escChar c hs.1 f (escList cs ++ 34 :: rest),
            ih (by simpa [wfStr] using hs.2) f rest (by simpa using hf)]
          rfl

theorem escChar_length_pos (c : Nat) : 0 < (escChar c).length := by
  rw [escChar]
  split_ifs <;> simp [hex4]

theorem length_le_escList (s : List Nat) : s.length ≤ (escList s).length := by
  induction s with
  | nil => simp [escList]
  | cons c cs ih =>
      have hc := escChar_length_pos c
      simp only [escList, List.flatMap_cons, List.length_append, List.length_cons]
      simp only [escList] at ih
      omega

/-- Decoding a rendered string literal body (with the fuel `pString` picks). -/
theorem pString_escList (s : List Nat) (hs : wfStr s = true) (rest : List Nat) :
    pString (escList s ++ 34 :: rest) = some (s, rest) := by
  rw [pString]
  apply pStringBody_escList s hs
  have := length_le_escList s
  simp only [List.length_append, List.length_cons]
  omega

theorem pDigits_stop (rest : List Nat) (h : headDigit rest = false) (acc : Nat) :
    pDigits rest acc = (acc, rest) := by
  cases rest with
  | nil => rfl
  | cons c cs =>
      cases hd : digitVal c with
      | none => simp [pDigits, hd]
      | some d => simp [headDigit, hd] at h

/-- Consuming the decimal digits of `n` shifts them into the accumulator. -/
theorem pDigits_natChars (n : Nat) : ∀ acc rest,
    pDigits (natChars n ++ rest) acc =
      pDigits rest (acc * 10 ^ (natChars n).length + n) := by
  induction n using Nat.strong_induction_on with
  | _ n ih =>
      intro acc rest
      by_cases h10 : n < 10
      · rw [natChars_eq, if_pos h10, List.cons_append, List.nil_append, pDigits]
        have hd : digitVal (48 + n) = some n := by
          rw [digitVal, if_pos (by omega)]
          congr 1
          omega
        rw [hd]
        simp
      · rw [natChars_eq n, if_neg h10, List.append_assoc, List.cons_append, List.nil_append,
          ih (n / 10) (by omega) acc ((48 + n % 10) :: rest), pDigits]
        have hd : digitVal (48 + n % 10) = some (n % 10) := by
          rw [digitVal, if_pos (by omega)]
          congr 1
          omega
        simp only [hd, List.length_append, List.length_cons, List.length_nil, Nat.zero_add]
        congr 1
        rw [pow_succ]
        have hmod : n / 10 * 10 + n % 10 = n := by omega
        calc (acc * 10 ^ (natChars (n / 10)).length + n / 10) * 10 + n % 10
            = acc * (10 ^ (natChars (n / 10)).length * 10) + (n / 10 * 10 + n % 10) := by
              ring
          _ = acc * (10 ^ (natChars (n / 10)).length * 10) + n := by rw [hmod]

theorem natChars_head (n : Nat) :
    ∃ c cs, natChars n = c :: cs ∧ 48 ≤ c ∧ c ≤ 57 := by
  induction n using Nat.strong_induction_on with
  | _ n ih =>
      by_cases h10 : n < 10
      · exact ⟨48 + n, [], by rw [natChars_eq, if_pos h10], by omega, by omega⟩
      · obtain ⟨c, cs, hc, h1, h2⟩ := ih (n / 10) (by omega)
        exact ⟨c, cs ++ [48 + n % 10],
          by rw [natChars_eq, if_neg h10, hc, List.cons_append], h1, h2⟩

theorem pNat_natChars (n : Nat) (rest : List Nat) (h : headDigit rest = false) :
    pNat (natChars n ++ rest) = some (n, rest) := by
  obtain ⟨c, cs, hc, h1, h2⟩ := natChars_head n
  have hhead : headDigit (natChars n ++ rest) = true := by
    rw [hc, List.cons_append, headDigit, digitVal, if_pos (by omega)]
    rfl
  rw [pNat, if_pos hhead, pDigits_natChars n 0 rest, pDigits_stop rest h]
  simp

/-- Parsing back a printed integer. -/
theorem pInt_intChars (i : Int) (rest : List Nat) (h : headDigit rest = false) :
    pInt (intChars i ++ rest) = some (i, rest) := by
  by_cases hneg : i < 0
  · rw [intChars, if_pos hneg, List.cons_append, pInt, if_pos rfl,
      pNat_natChars _ rest h]
    have hto : (((-i).toNat : Int)) = -i := Int.toNat_of_nonneg (by omega)
    simp [hto]
  · rw [intChars, if_neg hneg]
    obtain ⟨c, cs, hc, h1, h2⟩ := natChars_head i.toNat
    rw [hc, List.cons_append, pInt, if_neg (by omega), ← List.cons_append, ← hc,
      pNat_natChars _ rest h]
    have hto : ((i.toNat : Int)) = i := Int.toNat_of_nonneg (by omega)
    simp [hto]

theorem stripWord_self (w : List Nat) : ∀ rest, stripWord w (w ++ rest) = some rest := by
  induction w with
  | nil => intro rest; rfl
  | cons c cs ih =>
      intro rest
      rw [List.cons_append, stripWord, if_pos rfl]
      exact ih rest

theorem skipWs_not_ws (c : Nat) (l : List Nat) (h : isWsCp c = false) :
    skipWs (c :: l) = c :: l := by
  rw [skipWs, if_neg (by simp [h])]

/-- The fuelled value parser strips leading whitespace itself. -/
theorem pValue_cons_ws (c : Nat) (h : isWsCp c = true) (fuel : Nat) (l : List Nat) :
    pValue fuel (c :: l) = pValue fuel l := by
  cases fuel with
  | zero => rfl
  | succ f =>
      rw [pValue, pValue]
      congr 1
      rw [skipWs, if_pos h]

theorem pMember_cons_ws (c : Nat) (h : isWsCp c = true) (fuel : Nat) (l : List Nat) :
    pMember fuel (c :: l) = pMember fuel l := by
  cases fuel with
  | zero => rfl
  | succ f =>
      rw [pMember, pMember]
      congr 1
      rw [skipWs, if_pos h]

/-- Every rendered value starts with a character the array/whitespace
machinery of the parser leaves in place. -/
theorem render_head (v : J) :
    ∃ c cs, render v = c :: cs ∧ isWsCp c = false ∧ c ≠ 93 := by
  cases v with
  | str s => exact ⟨34, escList s ++ [34], rfl, by decide, by decide⟩
  | num i =>
      by_cases hneg : i < 0
      · refine ⟨45, natChars (-i).toNat, ?_, by decide, by decide⟩
        show intChars i = _
        rw [intChars, if_pos hneg]
      · obtain ⟨c, cs, hc, h1, h2⟩ := natChars_head i.toNat
        refine ⟨c, cs, ?_, ?_, by omega⟩
        · show intChars i = _
          rw [intChars, if_neg hneg, hc]
        · simp only [isWsCp, Bool.or_eq_false_iff, decide_eq_false_iff_not]
          omega
  | bool b =>
      cases b with
      | true => exact ⟨116, [114, 117, 101], rfl, by decide, by decide⟩
      | false => exact ⟨102, [97, 108, 115, 101], rfl, by decide, by decide⟩
  | null => exact ⟨110, [117, 108, 108], rfl, by decide, by decide⟩
  | arr vs =>
      cases vs with
      | nil => exact ⟨91, [93], rfl, by decide, by decide⟩
      | cons v vs' =>
          exact ⟨91, render v ++ renderItems vs' ++ [93], rfl, by decide, by decide⟩
  | obj kvs =>
      cases kvs with
      | nil => exact ⟨123, [125], rfl, by decide, by decide⟩
      | cons kv kvs' =>
          obtain ⟨k, w⟩ := kv
          exact ⟨123, renderStr k ++ 58 :: 32 :: (render w ++ renderMembers kvs' ++ [125]),
            rfl, by decide, by decide⟩

theorem headDigit_renderItems (vs : List J) (rest : List Nat) :
    headDigit (renderItems vs ++ 93 :: rest) = false := by
  cases vs with
  | nil => rfl
  | cons v vs' => rfl

theorem headDigit_renderMembers (kvs : List (List Nat × J)) (rest : List Nat) :
    headDigit (renderMembers kvs ++ 125 :: rest) = false := by
  cases kvs with
  | nil => rfl
  | cons kv kvs' =>
      obtain ⟨k, w⟩ := kv
      rfl

/-- The parser's recursion-depth measure of a value is bounded by the
length of its rendering, so `jloads`' fuel choice always suffices. -/
theorem jsize_le : ∀ n : Nat,
    (∀ v : J, sizeOf v ≤ n → jsize v ≤ (render v).length + 1) ∧
    (∀ vs : List J, sizeOf vs ≤ n → jsizeL vs ≤ (renderItems vs).length + 1) ∧
    (∀ kvs : List (List Nat × J), sizeOf kvs ≤ n →
      jsizeM kvs ≤ (renderMembers kvs).length + 1) := by
  intro n
  induction n using Nat.strong_induction_on with
  | _ n ih =>
      refine ⟨?_, ?_, ?_⟩
      · intro v hv
        cases v with
        | str s => simp only [jsize]; omega
        | num i => simp only [jsize]; omega
        | bool b => simp only [jsize]; omega
        | null => simp only [jsize]; omega
        | arr vs =>
            have hvs : sizeOf vs < n := by
              have hs := J.arr.sizeOf_spec vs
              omega
            have hb := (ih (sizeOf vs) hvs).2.1 vs le_rfl
            cases vs with
            | nil => simp [jsize, jsizeL, render]
            | cons v vs' =>
                have hv1 : sizeOf v < sizeOf (v :: vs') := by
                  have := List.cons.sizeOf_spec v vs'
                  omega
                have hv2 : sizeOf vs' < sizeOf (v :: vs') := by
                  have := List.cons.sizeOf_spec v vs'
                  omega
                have b1 := (ih (sizeOf v) (by omega)).1 v le_rfl
                have b2 := (ih (sizeOf vs') (by omega)).2.1 vs' le_rfl
                simp only [jsize, jsizeL, render, renderItems, List.length_cons,
                  List.length_append] at b1 b2 ⊢
                omega
        | obj kvs =>
            have hkvs : sizeOf kvs < n := by
              have hs := J.obj.sizeOf_spec kvs
              omega
            cases kvs with
            | nil => simp [jsize, jsizeM, render]
            | cons kv kvs' =>
                obtain ⟨k, w⟩ := kv
                have hv1 : sizeOf w < sizeOf ((k, w) :: kvs') := by
                  have h1 := List.cons.sizeOf_spec (k, w) kvs'
                  have h2 := Prod.mk.sizeOf_spec k w
                  omega
                have hv2 : sizeOf kvs' < sizeOf ((k, w) :: kvs') := by
                  have h1 := List.cons.sizeOf_spec (k, w) kvs'
                  omega
                have b1 := (ih (sizeOf w) (by omega)).1 w le_rfl
                have b2 := (ih (sizeOf kvs') (by omega)).2.2 kvs' le_rfl
                simp only [jsize, jsizeM, render, List.length_cons,
                  List.length_append] at b1 b2 ⊢
                omega
      · intro vs hvs
        cases vs with
        | nil => simp [jsizeL, renderItems]
        | cons v vs' =>
            have hv1 : sizeOf v < n := by
              have := List.cons.sizeOf_spec v vs'
              omega
            have hv2 : sizeOf vs' < n := by
              have := List.cons.sizeOf_spec v vs'
              omega
            have b1 := (ih (sizeOf v) hv1).1 v le_rfl
            have b2 := (ih (sizeOf vs') hv2).2.1 vs' le_rfl
            simp only [jsizeL, renderItems, List.length_cons, List.length_append] at b1 b2 ⊢
            omega
      · intro kvs hkvs
        cases kvs with
        | nil => simp [jsizeM, renderMembers]
        | cons kv kvs' =>
            obtain ⟨k, w⟩ := kv
            have hv1 : sizeOf w < n := by
              have h1 := List.cons.sizeOf_spec (k, w) kvs'
              have h2 := Prod.mk.sizeOf_spec k w
              omega
            have hv2 : sizeOf kvs' < n := by
              have := List.cons.sizeOf_spec (k, w) kvs'
              omega
            have b1 := (ih (sizeOf w) hv1).1 w le_rfl
            have b2 := (ih (sizeOf kvs') hv2).2.2 kvs' le_rfl
            simp only [jsizeM, renderMembers, List.length_cons, List.length_append] at b1 b2 ⊢
            omega

/-- Parsing back a rendered value with enough fuel; the mutual induction
carries the remaining-array-items, one-member and remaining-members forms
along with the value form. -/
theorem parse_render_all : ∀ fuel : Nat,
    (∀ v rest, wf v = true → jsize v ≤ fuel → headDigit rest = false →
      pValue fuel (render v ++ rest) = some (v, rest)) ∧
    (∀ vs rest, wfArr vs = true → jsizeL vs ≤ fuel →
      pItems fuel (renderItems vs ++ 93 :: rest) = some (vs, rest)) ∧
    (∀ k w rest, wfStr k = true → wf w = true → jsize w < fuel → headDigit rest = false →
      pMember fuel (renderStr k ++ 58 :: 32 :: (render w ++ rest)) = some ((k, w), rest)) ∧
    (∀ kvs rest, wfObj kvs = true → jsizeM kvs ≤ fuel →
      pMembers fuel (renderMembers kvs ++ 125 :: rest) = some (kvs, rest)) := by
  intro fuel
  induction fuel with
  | zero =>
      refine ⟨?_, ?_, ?_, ?_⟩
      · intro v rest _ hsz _
        exfalso
        cases v <;> simp only [jsize] at hsz <;> omega
      · intro vs rest _ hsz
        exfalso
        cases vs with
        | nil => simp only [jsizeL] at hsz; omega
        | cons v vs' => simp only [jsizeL] at hsz; omega
      · intro k w rest _ _ hsz _
        omega
      · intro kvs rest _ hsz
        exfalso
        cases kvs with
        | nil => simp only [jsizeM] at hsz; omega
        | cons kv kvs' =>
            obtain ⟨k, w⟩ := kv
            simp only [jsizeM] at hsz
            omega
  | succ f ih =>
      obtain ⟨ihV, ihI, ihM, ihMs⟩ := ih
      refine ⟨?_, ?_, ?_, ?_⟩
      · intro v rest hwf hsz hrest
        cases v with
        | str s =>
            have hin : render (J.str s) ++ rest = 34 :: (escList s ++ 34 :: rest) := by
              simp [render, renderStr, List.append_assoc]
            rw [pValue, hin, skipWs_not_ws 34 _ (by decide), pValueCore, if_pos rfl,
              pString_escList s (by simpa [wf, wfStr] using hwf) rest]
            rfl
        | num i =>
            by_cases hneg : i < 0
            · have hin : render (J.num i) ++ rest = 45 :: (natChars (-i).toNat ++ rest) := by
                simp [render, intChars, hneg]
              rw [pValue, hin, skipWs_not_ws 45 _ (by decide), pValueCore,
                if_neg (by decide), if_neg (by decide), if_neg (by decide), if_neg (by decide),
                if_neg (by decide), if_neg (by decide)]
              have hback : (45 : Nat) :: (natChars (-i).toNat ++ rest) = intChars i ++ rest := by
                simp [intChars, hneg]
              rw [hback, pInt_intChars i rest hrest]
              rfl
            · obtain ⟨c, cs, hc, h1, h2⟩ := natChars_head i.toNat
              have hin : render (J.num i) ++ rest = c :: (cs ++ rest) := by
                simp [render, intChars, hneg, hc]
              rw [pValue, hin,
                skipWs_not_ws c _ (by
                  simp only [isWsCp, Bool.or_eq_false_iff, decide_eq_false_iff_not]
                  omega),
                pValueCore,
                if_neg (by omega), if_neg (by omega), if_neg (by omega), if_neg (by omega),
                if_neg (by omega), if_neg (by omega)]
              have hback : c :: (cs ++ rest) = intChars i ++ rest := by
                simp [intChars, hneg, hc]
              rw [hback, pInt_intChars i rest hrest]
              rfl
        | bool b =>
            cases b with
            | true =>
                have hin : render (J.bool true) ++ rest = 116 :: ([114, 117, 101] ++ rest) := by
                  simp [render]
                rw [pValue, hin, skipWs_not_ws 116 _ (by decide), pValueCore,
                  if_neg (by decide), if_pos rfl, stripWord_self [114, 117, 101] rest]
                rfl
            | false =>
                have hin : render (J.bool false) ++ rest =
                    102 :: ([97, 108, 115, 101] ++ rest) := by
                  simp [render]
                rw [pValue, hin, skipWs_not_ws 102 _ (by decide), pValueCore,
                  if_neg (by decide), if_neg (by decide), if_pos rfl,
                  stripWord_self [97, 108, 115, 101] rest]
                rfl
        | null =>
            have hin : render J.null ++ rest = 110 :: ([117, 108, 108] ++ rest) := by
              simp [render]
            rw [pValue, hin, skipWs_not_ws 110 _ (by decide), pValueCore,
              if_neg (by decide), if_neg (by decide), if_neg (by decide), if_pos rfl,
              stripWord_self [117, 108, 108] rest]
            rfl
        | arr vs =>
            cases vs with
            | nil =>
                have hin : render (J.arr []) ++ rest = 91 :: (93 :: rest) := by
                  simp [render]
                rw [pValue, hin, skipWs_not_ws 91 _ (by decide), pValueCore,
                  if_neg (by decide), if_neg (by decide), if_neg (by decide),
                  if_neg (by decide), if_pos rfl, skipWs_not_ws 93 _ (by decide),
                  pArrTail, if_pos rfl]
            | cons v vs' =>
                obtain ⟨c, cs, hc, hws, h93⟩ := render_head v
                have hwfv : wf v = true ∧ wfArr vs' = true := by
                  simpa [wf, wfArr] using hwf
                have hszv : jsize v ≤ f ∧ jsizeL vs' ≤ f := by
                  simp only [jsize, jsizeL] at hsz
                  omega
                have hin : render (J.arr (v :: vs')) ++ rest =
                    91 :: (render v ++ (renderItems vs' ++ 93 :: rest)) := by
                  simp [render, List.append_assoc]
                rw [pValue, hin, skipWs_not_ws 91 _ (by decide), pValueCore,
                  if_neg (by decide), if_neg (by decide), if_neg (by decide),
                  if_neg (by decide), if_pos rfl, hc, List.cons_append,
                  skipWs_not_ws c _ hws, pArrTail, if_neg h93, ← List.cons_append, ← hc,
                  ihV v (renderItems vs' ++ 93 :: rest) hwfv.1 hszv.1
                    (headDigit_renderItems vs' rest)]
                rw [Option.some_bind]
                rw [ihI vs' rest hwfv.2 hszv.2]
                rfl
        | obj kvs =>
            cases kvs with
            | nil =>
                have hin : render (J.obj []) ++ rest = 123 :: (125 :: rest) := by
                  simp [render]
                rw [pValue, hin, skipWs_not_ws 123 _ (by decide), pValueCore,
                  if_neg (by decide), if_neg (by decide), if_neg (by decide),
                  if_neg (by decide), if_neg (by decide), if_pos rfl,
                  skipWs_not_ws 125 _ (by decide), pObjTail, if_pos rfl]
            | cons kv kvs' =>
                obtain ⟨k, w⟩ := kv
                have hwfv : wfStr k = true ∧ wf w = true ∧ wfObj kvs' = true := by
                  simpa [wf, wfObj, and_assoc] using hwf
                have hszv : jsize w < f ∧ jsizeM kvs' ≤ f := by
                  simp only [jsize, jsizeM] at hsz
                  omega
                have hin : render (J.obj ((k, w) :: kvs')) ++ rest =
                    123 :: (34 :: (escList k ++
                      (34 :: 58 :: 32 :: (render w ++ (renderMembers kvs' ++ 125 :: rest))))) := by
                  simp [render, renderStr, List.append_assoc]
                have hback : (34 : Nat) :: (escList k ++
                      (34 :: 58 :: 32 :: (render w ++ (renderMembers kvs' ++ 125 :: rest)))) =
                    renderStr k ++ 58 :: 32 :: (render w ++ (renderMembers kvs' ++ 125 :: rest)) := by
                  simp [renderStr, List.append_assoc]
                rw [pValue, hin, skipWs_not_ws 123 _ (by decide), pValueCore,
                  if_neg (by decide), if_neg (by decide), if_neg (by decide),
                  if_neg (by decide), if_neg (by decide), if_pos rfl,
                  skipWs_not_ws 34 _ (by decide), pObjTail, if_neg (by decide), hback,
                  ihM k w (renderMembers kvs' ++ 125 :: rest) hwfv.1 hwfv.2.1 hszv.1
                    (headDigit_renderMembers kvs' rest)]
                rw [Option.some_bind]
                rw [ihMs kvs' rest hwfv.2.2 hszv.2]
                rfl
      · intro vs rest hwf hsz
        cases vs with
        | nil =>
            have hin : renderItems ([] : List J) ++ 93 :: rest = 93 :: rest := rfl
            rw [pItems, hin, skipWs_not_ws 93 _ (by decide), pItemsCore, if_pos rfl]
        | cons v vs' =>
            have hwfv : wf v = true ∧ wfArr vs' = true := by
              simpa [wfArr] using hwf
            have hszv : jsize v ≤ f ∧ jsizeL vs' ≤ f := by
              simp only [jsizeL] at hsz
              omega
            have hin : renderItems (v :: vs') ++ 93 :: rest =
                44 :: (32 :: (render v ++ (renderItems vs' ++ 93 :: rest))) := by
              simp [renderItems, List.append_assoc]
            rw [pItems, hin, skipWs_not_ws 44 _ (by decide), pItemsCore,
              if_neg (by decide), if_pos rfl, pValue_cons_ws 32 (by decide) f _,
              ihV v (renderItems vs' ++ 93 :: rest) hwfv.1 hszv.1
                (headDigit_renderItems vs' rest)]
            rw [Option.some_bind]
            rw [ihI vs' rest hwfv.2 hszv.2]
            rfl
      · intro k w rest hk hw hsz hrest
        have hin : renderStr k ++ 58 :: 32 :: (render w ++ rest) =
            34 :: (escList k ++ 34 :: (58 :: 32 :: (render w ++ rest))) := by
          simp [renderStr, List.append_assoc]
        rw [pMember, hin, skipWs_not_ws 34 _ (by decide), pMemberCore, if_pos rfl,
          pString_escList k hk _]
        rw [Option.some_bind]
        rw [skipWs_not_ws 58 _ (by decide), pMemberColon, if_pos rfl,
          pValue_cons_ws 32 (by decide) f _, ihV w rest hw (by omega) hrest]
        rfl
      · intro kvs rest hwf hsz
        cases kvs with
        | nil =>
            have hin : renderMembers ([] : List (List Nat × J)) ++ 125 :: rest =
              125 :: rest := rfl
            rw [pMembers, hin, skipWs_not_ws 125 _ (by decide), pMembersCore, if_pos rfl]
        | cons kv kvs' =>
            obtain ⟨k, w⟩ := kv
            have hwfv : wfStr k = true ∧ wf w = true ∧ wfObj kvs' = true := by
              simpa [wfObj, and_assoc] using hwf
            have hszv : jsize w < f ∧ jsizeM kvs' ≤ f := by
              simp only [jsizeM] at hsz
              omega
            have hin : renderMembers ((k, w) :: kvs') ++ 125 :: rest =
                44 :: (32 :: (renderStr k ++
                  58 :: 32 :: (render w ++ (renderMembers kvs' ++ 125 :: rest)))) := by
              simp [renderMembers, List.append_assoc]
            rw [pMembers, hin, skipWs_not_ws 44 _ (by decide), pMembersCore,
              if_neg (by decide), if_pos rfl, pMember_cons_ws 32 (by decide) f _,
              ihM k w (renderMembers kvs' ++ 125 :: rest) hwfv.1 hwfv.2.1 hszv.1
                (headDigit_renderMembers kvs' rest)]
            rw [Option.some_bind]
            rw [ihMs kvs' rest hwfv.2.2 hszv.2]
            rfl

/-- `json.loads ∘ json.dumps` is the identity on well-formed values. -/
theorem jloads_render (v : J) (hwf : wf v = true) : jloads (render v) = some v := by
  have hbound := (jsize_le (sizeOf v)).1 v le_rfl
  have h := (parse_render_all ((render v).length + 1)).1 v [] hwf (by omega) rfl
  rw [List.append_nil] at h
  simp only [jloads, h]
  rfl

end Json

/-! ## The SQLite storage backend (`traced/storage/sqlite.py`)

Rows as the two tables hold them: every column a scalar, the `data` /
`content` columns TEXT holding `json.dumps` output.  `save_trace_event`
assigns the event row id from a fresh-UUID counter; `save_artifact` keys the
row by the artifact's own id.  `get_trace` filters each table by trace id
and maps `json.loads` back over the serialized column. -/

namespace Sqlite

open Json

/-- `TraceEvent.to_dict` (`traced/core/events.py`): the eight fields the
backend receives. -/
structure TraceEvent where
  traceId : List Nat
  executionId : List Nat
  parentId : Option (List Nat)
  agentName : List Nat
  methodName : List Nat
  eventType : List Nat
  timestamp : Nat
  data : J

/-- `Artifact.to_dict`: the seven fields the backend receives. -/
structure Artifact where
  id : List Nat
  traceId : List Nat
  executionId : List Nat
  name : List Nat
  content : J
  artifactType : List Nat
  timestamp : Nat

/-- A row of `trace_events`: `data` is the serialized TEXT column. -/
structure EventRow where
  id : Nat
  traceId : List Nat
  executionId : List Nat
  parentId : Option (List Nat)
  agentName : List Nat
  methodName : List Nat
  eventType : List Nat
  timestamp : Nat
  data : List Nat

/-- A row of `trace_artifacts`: `content` is the serialized TEXT column. -/
structure ArtifactRow where
  id : List Nat
  traceId : List Nat
  executionId : List Nat
  name : List Nat
  content : List Nat
  artifactType : List Nat
  timestamp : Nat

/-- The database file: both tables, plus the fresh-UUID counter used for
event row ids. -/
structure SqliteDB where
  eventRows : List EventRow
  artifactRows : List ArtifactRow
  fresh : Nat

/-- An events-table row as `get_trace` returns it, `data` parsed back from
JSON (`none` would mean the TEXT column failed to parse). -/
structure FetchedEvent where
  id : Nat
  traceId : List Nat
  executionId : List Nat
  parentId : Option (List Nat)
  agentName : List Nat
  methodName : List Nat
  eventType : List Nat
  timestamp : Nat
  data : Option J

/-- An artifacts-table row as `get_trace` returns it. -/
structure FetchedArtifact where
  id : List Nat
  traceId : List Nat
  executionId : List Nat
  name : List Nat
  content : Option J
  artifactType : List Nat
  timestamp : Nat

/-- `SQLiteTraceStorage.save_trace_event`: serialize `data` with
`json.dumps`, insert the row under a fresh uuid, return that uuid. -/
def save_trace_event (db : SqliteDB) (e : TraceEvent) : SqliteDB × Nat :=
  ({ eventRows := db.eventRows ++
      [⟨db.fresh, e.traceId, e.executionId, e.parentId, e.agentName,
        e.methodName, e.eventType, e.timestamp, render e.data⟩],
     artifactRows := db.artifactRows,
     fresh := db.fresh + 1 }, db.fresh)

/-- `SQLiteTraceStorage.save_artifact`: serialize `content`, insert the row
under the artifact's own id, return that id. -/
def save_artifact (db : SqliteDB) (a : Artifact) : SqliteDB × List Nat :=
  ({ eventRows := db.eventRows,
     artifactRows := db.artifactRows ++
      [⟨a.id, a.traceId, a.executionId, a.name, render a.content,
        a.artifactType, a.timestamp⟩],
     fresh := db.fresh }, a.id)

/-- `SQLiteTraceStorage.get_trace`: select both tables by trace id and
deserialize the JSON column of every matching row. -/
def get_trace (db : SqliteDB) (tid : List Nat) :
    List FetchedEvent × List FetchedArtifact :=
  ((db.eventRows.filter (fun r => decide (r.traceId = tid))).map (fun r =>
      ⟨r.id, r.traceId, r.executionId, r.parentId, r.agentName, r.methodName,
        r.eventType, r.timestamp, jloads r.data⟩),
   (db.artifactRows.filter (fun r => decide (r.traceId = tid))).map (fun r =>
      ⟨r.id, r.traceId, r.executionId, r.name, jloads r.content,
        r.artifactType, r.timestamp⟩))

end Sqlite

/-- C8: for every event and artifact whose data/content is a JSON value
made of strings of Unicode scalar values, numbers, booleans, null, lists
and string-keyed maps, saving it through the SQLite backend and fetching
the trace back yields a record agreeing with the original on every
`to_dict` field, with the data/content value equal to what was saved. -/
theorem C8_backend_roundtrip :
    (∀ (db : Sqlite.SqliteDB) (e : Sqlite.TraceEvent), Json.wf e.data = true →
      ∃ fe, fe ∈ (Sqlite.get_trace (Sqlite.save_trace_event db e).1 e.traceId).1 ∧
        fe.traceId = e.traceId ∧ fe.executionId = e.executionId ∧
        fe.parentId = e.parentId ∧ fe.agentName = e.agentName ∧
        fe.methodName = e.methodName ∧ fe.eventType = e.eventType ∧
        fe.timestamp = e.timestamp ∧ fe.data = some e.data) ∧
    (∀ (db : Sqlite.SqliteDB) (a : Sqlite.Artifact), Json.wf a.content = true →
      ∃ fa, fa ∈ (Sqlite.get_trace (Sqlite.save_artifact db a).1 a.traceId).2 ∧
        fa.id = a.id ∧ fa.traceId = a.traceId ∧ fa.executionId = a.executionId ∧
        fa.name = a.name ∧ fa.content = some a.content ∧
        fa.artifactType = a.artifactType ∧ fa.timestamp = a.timestamp) := by
  constructor
  · intro db e hwf
    refine ⟨⟨db.fresh, e.traceId, e.executionId, e.parentId, e.agentName,
      e.methodName, e.eventType, e.timestamp, Json.jloads (Json.render e.data)⟩,
      ?_, rfl, rfl, rfl, rfl, rfl, rfl, rfl, Json.jloads_render e.data hwf⟩
    simp only [Sqlite.get_trace, Sqlite.save_trace_event, List.mem_map]
    refine ⟨⟨db.fresh, e.traceId, e.executionId, e.parentId, e.agentName,
      e.methodName, e.eventType, e.timestamp, Json.render e.data⟩, ?_, rfl⟩
    rw [List.mem_filter]
    exact ⟨List.mem_append_right _ (List.mem_singleton_self _), by simp⟩
  · intro db a hwf
    refine ⟨⟨a.id, a.traceId, a.executionId, a.name,
      Json.jloads (Json.render a.content), a.artifactType, a.timestamp⟩,
      ?_, rfl, rfl, rfl, rfl, Json.jloads_render a.content hwf, rfl, rfl⟩
    simp only [Sqlite.get_trace, Sqlite.save_artifact, List.mem_map]
    refine ⟨⟨a.id, a.traceId, a.executionId, a.name, Json.render a.content,
      a.artifactType, a.timestamp⟩, ?_, rfl⟩
    rw [List.mem_filter]
    exact ⟨List.mem_append_right _ (List.mem_singleton_self _), by simp⟩

open Json Sqlite in
/-- Witness for C8 at a concrete event and artifact whose payload mixes an
object, an array, a negative number, null, and a string needing escapes. -/
theorem C8_backend_roundtrip_witness :
    Json.wf (J.obj [([107], J.arr [J.num (-3), J.null, J.str [10, 233]])]) = true ∧
    (∃ fe, fe ∈ (Sqlite.get_trace (Sqlite.save_trace_event ⟨[], [], 0⟩
        ⟨[116, 49], [101, 49], none, [97, 103], [109, 101], [115, 116], 5,
          J.obj [([107], J.arr [J.num (-3), J.null, J.str [10, 233]])]⟩).1 [116, 49]).1 ∧
      fe.traceId = [116, 49] ∧ fe.executionId = [101, 49] ∧
      fe.parentId = none ∧ fe.agentName = [97, 103] ∧
      fe.methodName = [109, 101] ∧ fe.eventType = [115, 116] ∧
      fe.timestamp = 5 ∧
      fe.data = some (J.obj [([107], J.arr [J.num (-3), J.null, J.str [10, 233]])])) ∧
    (∃ fa, fa ∈ (Sqlite.get_trace (Sqlite.save_artifact ⟨[], [], 0⟩
        ⟨[105, 100], [116, 49], [101, 49], [110], J.str [34, 92, 70000],
          [106], 7⟩).1 [116, 49]).2 ∧
      fa.id = [105, 100] ∧ fa.traceId = [116, 49] ∧ fa.executionId = [101, 49] ∧
      fa.name = [110] ∧ fa.content = some (J.str [34, 92, 70000]) ∧
      fa.artifactType = [106] ∧ fa.timestamp = 7) :=
  ⟨by decide,
   C8_backend_roundtrip.1 ⟨[], [], 0⟩
     ⟨[116, 49], [101, 49], none, [97, 103], [109, 101], [115, 116], 5,
       J.obj [([107], J.arr [J.num (-3), J.null, J.str [10, 233]])]⟩ (by decide),
   C8_backend_roundtrip.2 ⟨[], [], 0⟩
     ⟨[105, 100], [116, 49], [101, 49], [110], J.str [34, 92, 70000], [106], 7⟩
     (by decide)⟩

/-! ## The viewer's tree reconstruction (`traced_viewer/app/models.py`)

`Trace.from_database` selects a trace's events ordered by timestamp
(ascending, ties in table order — the stable sort models the engine's scan
order), groups them into executions keyed by execution id (a Python dict:
first occurrence fixes the entry's parent and agent, insertion order is
kept), attaches artifacts to existing entries only, then appends children
and computes roots.  Python truthiness of the parent id (None and the empty
string are falsy) is modelled explicitly. -/

namespace Viewer

open Json

/-- `TraceEvent.from_row`: an events-table row with `data` parsed back. -/
structure VEvent where
  id : Nat
  traceId : List Nat
  executionId : List Nat
  parentId : Option (List Nat)
  agentName : List Nat
  methodName : List Nat
  eventType : List Nat
  timestamp : Nat
  data : Option J

def VEvent.ofRow (r : Sqlite.EventRow) : VEvent :=
  ⟨r.id, r.traceId, r.executionId, r.parentId, r.agentName, r.methodName,
   r.eventType, r.timestamp, jloads r.data⟩

/-- `Artifact.from_row`: an artifacts-table row with `content` parsed back. -/
structure VArtifact where
  id : List Nat
  traceId : List Nat
  executionId : List Nat
  name : List Nat
  content : Option J
  artifactType : List Nat
  timestamp : Nat

def VArtifact.ofRow (r : Sqlite.ArtifactRow) : VArtifact :=
  ⟨r.id, r.traceId, r.executionId, r.name, jloads r.content,
   r.artifactType, r.timestamp⟩

/-- One node of the reconstructed tree (dataclass `Execution`). -/
structure Execution where
  id : List Nat
  parentId : Option (List Nat)
  agentName : List Nat
  events : List VEvent
  artifacts : List VArtifact
  children : List (List Nat)

/-- The `executions` dict: an association list in insertion order. -/
abbrev EMap := List (List Nat × Execution)

/-- Dict lookup. -/
def alookup {α : Type} : List (List Nat × α) → List Nat → Option α
  | [], _ => none
  | (k', v) :: rest, k => if k' = k then some v else alookup rest k

/-- Dict update in place of the entry holding key `k` (a no-op when the key
is absent). -/
def aupdate {α : Type} : List (List Nat × α) → List Nat → (α → α) → List (List Nat × α)
  | [], _, _ => []
  | (k', v) :: rest, k, f =>
      if k' = k then (k', f v) :: rest else (k', v) :: aupdate rest k f

/-- One turn of the event-grouping loop: create the entry on first sight of
the execution id (parent and agent from this event), then append the event. -/
def addEvent (m : EMap) (e : VEvent) : EMap :=
  let m' := match alookup m e.executionId with
    | none => m ++ [(e.executionId, ⟨e.executionId, e.parentId, e.agentName, [], [], []⟩)]
    | some _ => m
  aupdate m' e.executionId (fun ex => { ex with events := ex.events ++ [e] })

/-- One turn of the artifact loop: attach only when the execution exists. -/
def addArtifact (m : EMap) (a : VArtifact) : EMap :=
  match alookup m a.executionId with
  | some _ =>
      aupdate m a.executionId (fun ex => { ex with artifacts := ex.artifacts ++ [a] })
  | none => m

/-- One turn of the parent-child loop over a `(key, parent id)` item:
`if parent_id and parent_id in executions` (truthiness: `None` and the
empty string skip). -/
def childStep (acc : EMap) (kp : List Nat × Option (List Nat)) : EMap :=
  match kp.2 with
  | some pid =>
      if pid ≠ [] ∧ (alookup acc pid).isSome then
        aupdate acc pid (fun ex => { ex with children := ex.children ++ [kp.1] })
      else acc
  | none => acc

/-- The parent-child loop: iterate the dict's items (their keys and parent
ids are fixed before the loop; only `children` mutates). -/
def addChildren (m : EMap) : EMap :=
  (m.map (fun p => (p.1, p.2.parentId))).foldl childStep m

/-- `not execution.parent_id or execution.parent_id not in executions`. -/
def isRoot (m : EMap) (p : Option (List Nat)) : Bool :=
  match p with
  | none => true
  | some pid => pid.isEmpty || (alookup m pid).isNone

/-- The reconstructed trace (dataclass `Trace`). -/
structure Trace where
  id : List Nat
  executions : EMap
  root_executions : List (List Nat)

/-- The pure body of `Trace.from_database`, after the two SELECTs. -/
def buildTrace (tid : List Nat) (evs : List VEvent) (arts : List VArtifact) : Trace :=
  let m1 := evs.foldl addEvent []
  let m2 := arts.foldl addArtifact m1
  let m3 := addChildren m2
  ⟨tid, m3, (m3.filter (fun p => isRoot m3 p.2.parentId)).map (fun p => p.1)⟩

/-- `Trace.from_database`: events of the trace ordered by timestamp
ascending (stable in table order), artifacts of the trace in table order,
then the grouping loops. -/
def from_database (events : List Sqlite.EventRow) (artifactRows : List Sqlite.ArtifactRow)
    (tid : List Nat) : Trace :=
  buildTrace tid
    (((events.filter (fun r => decide (r.traceId = tid))).insertionSort
        (fun a b => a.timestamp ≤ b.timestamp)).map VEvent.ofRow)
    ((artifactRows.filter (fun r => decide (r.traceId = tid))).map VArtifact.ofRow)

/-- `SELECT DISTINCT`-style key extraction: first occurrence keeps its place. -/
def firstOccur : List (List Nat) → List (List Nat) → List (List Nat)
  | [], _ => []
  | k :: rest, seen =>
      if k ∈ seen then firstOccur rest seen else k :: firstOccur rest (k :: seen)

/-- `MIN(timestamp)` over a group (groups are never empty). -/
def minTs : List Sqlite.EventRow → Nat
  | [] => 0
  | r :: rest => rest.foldl (fun acc q => min acc q.timestamp) r.timestamp

/-- `MAX(timestamp)` over a group. -/
def maxTs : List Sqlite.EventRow → Nat
  | [] => 0
  | r :: rest => rest.foldl (fun acc q => max acc q.timestamp) r.timestamp

/-- The correlated subquery: the agent name of the trace's first event by
timestamp (`ORDER BY timestamp ASC LIMIT 1`). -/
def rootAgent (rs : List Sqlite.EventRow) : List Nat :=
  match rs.insertionSort (fun a b => a.timestamp ≤ b.timestamp) with
  | [] => []
  | r :: _ => r.agentName

/-- One summary row of `Trace.list_traces`. -/
structure TraceSummary where
  trace_id : List Nat
  root_agent : List Nat
  execution_count : Nat
  duration : Nat
  start_time : Nat
  deriving DecidableEq

/-- One `GROUP BY trace_id` output row. -/
def summarize (events : List Sqlite.EventRow) (tid : List Nat) : TraceSummary :=
  let rs := events.filter (fun r => decide (r.traceId = tid))
  ⟨tid, rootAgent rs, (firstOccur (rs.map (fun r => r.executionId)) []).length,
   maxTs rs - minTs rs, minTs rs⟩

/-- `Trace.list_traces`: group by trace id, order by start time descending,
keep at most `limit` rows. -/
def list_traces (events : List Sqlite.EventRow) (limit : Nat) : List TraceSummary :=
  (((firstOccur (events.map (fun r => r.traceId)) []).map (summarize events)).insertionSort
      (fun a b => b.start_time ≤ a.start_time)).take limit

end Viewer

namespace Viewer

theorem alookup_aupdate {α : Type} (m : List (List Nat × α)) (k : List Nat) (f : α → α)
    (k' : List Nat) :
    alookup (aupdate m k f) k' =
      if k' = k then (alookup m k').map f else alookup m k' := by
  induction m with
  | nil => simp [alookup, aupdate]
  | cons hd tl ih =>
      obtain ⟨k0, v0⟩ := hd
      by_cases h0 : k0 = k
      · rw [aupdate, if_pos h0]
        by_cases h1 : k0 = k'
        · rw [alookup, if_pos h1, if_pos (by rw [← h1, h0]), alookup, if_pos h1]
          rfl
        · rw [alookup, if_neg h1, alookup, if_neg h1]
          by_cases h2 : k' = k
          · exact absurd (h0.trans h2.symm) h1
          · rw [if_neg h2]
      · rw [aupdate, if_neg h0]
        by_cases h1 : k0 = k'
        · rw [alookup, if_pos h1]
          have h2 : ¬(k' = k) := fun h => h0 (h1.trans h)
          rw [if_neg h2, alookup, if_pos h1]
        · rw [alookup, if_neg h1, ih, alookup, if_neg h1]

theorem keys_aupdate {α : Type} (m : List (List Nat × α)) (k : List Nat) (f : α → α) :
    (aupdate m k f).map Prod.fst = m.map Prod.fst := by
  induction m with
  | nil => rfl
  | cons hd tl ih =>
      obtain ⟨k0, v0⟩ := hd
      by_cases h0 : k0 = k
      · rw [aupdate, if_pos h0, List.map_cons, List.map_cons]
      · rw [aupdate, if_neg h0, List.map_cons, List.map_cons, ih]

theorem alookup_isSome_iff {α : Type} (m : List (List Nat × α)) (k : List Nat) :
    (alookup m k).isSome = true ↔ k ∈ m.map Prod.fst := by
  induction m with
  | nil => simp [alookup]
  | cons hd tl ih =>
      obtain ⟨k0, v0⟩ := hd
      by_cases h0 : k0 = k
      · simp [alookup, h0]
      · rw [alookup, if_neg h0]
        simp only [List.map_cons, List.mem_cons]
        rw [ih]
        constructor
        · exact Or.inr
        · rintro (h | h)
          · exact absurd h.symm h0
          · exact h

theorem alookup_mem {α : Type} (m : List (List Nat × α)) (k : List Nat) (v : α)
    (h : alookup m k = some v) : (k, v) ∈ m := by
  induction m with
  | nil => simp [alookup] at h
  | cons hd tl ih =>
      obtain ⟨k0, v0⟩ := hd
      by_cases h0 : k0 = k
      · rw [alookup, if_pos h0] at h
        obtain rfl := h0
        obtain rfl : v0 = v := by injection h
        exact List.mem_cons_self _ _
      · rw [alookup, if_neg h0] at h
        exact List.mem_cons_of_mem _ (ih h)

theorem mem_alookup {α : Type} (m : List (List Nat × α)) (k : List Nat) (v : α)
    (hnd : (m.map Prod.fst).Nodup) (h : (k, v) ∈ m) : alookup m k = some v := by
  induction m with
  | nil => simp at h
  | cons hd tl ih =>
      obtain ⟨k0, v0⟩ := hd
      rw [List.map_cons, List.nodup_cons] at hnd
      rcases List.mem_cons.mp h with h | h
      · obtain ⟨h1, h2⟩ := Prod.mk.injEq k0 v0 k v ▸ h.symm
        rw [alookup, if_pos h1, h2]
      · by_cases h0 : k0 = k
        · exact absurd (h0 ▸ (List.mem_map_of_mem Prod.fst h : (k, v).1 ∈ tl.map Prod.fst))
            hnd.1
        · rw [alookup, if_neg h0]
          exact ih hnd.2 h

theorem mem_aupdate {α : Type} (m : List (List Nat × α)) (k : List Nat) (f : α → α)
    (p : List Nat × α) (h : p ∈ aupdate m k f) :
    p ∈ m ∨ ∃ v, (k, v) ∈ m ∧ p = (k, f v) := by
  induction m with
  | nil => simp [aupdate] at h
  | cons hd tl ih =>
      obtain ⟨k0, v0⟩ := hd
      by_cases h0 : k0 = k
      · rw [aupdate, if_pos h0] at h
        rcases List.mem_cons.mp h with h | h
        · exact Or.inr ⟨v0, by rw [← h0]; exact List.mem_cons_self _ _, by rw [h, h0]⟩
        · exact Or.inl (List.mem_cons_of_mem _ h)
      · rw [aupdate, if_neg h0] at h
        rcases List.mem_cons.mp h with h | h
        · exact Or.inl (h ▸ List.mem_cons_self _ _)
        · rcases ih h with h | ⟨v, hv, hp⟩
          · exact Or.inl (List.mem_cons_of_mem _ h)
          · exact Or.inr ⟨v, List.mem_cons_of_mem _ hv, hp⟩

end Viewer

namespace Viewer

theorem keys_addEvent (m : EMap) (e : VEvent) :
    (addEvent m e).map Prod.fst =
      if (alookup m e.executionId).isSome then m.map Prod.fst
      else m.map Prod.fst ++ [e.executionId] := by
  rw [addEvent]
  cases h : alookup m e.executionId with
  | none => simp [h, keys_aupdate]
  | some ex => simp [h, keys_aupdate]

theorem mem_keys_addEvent (m : EMap) (e : VEvent) (k : List Nat) :
    k ∈ (addEvent m e).map Prod.fst ↔ k ∈ m.map Prod.fst ∨ e.executionId = k := by
  rw [keys_addEvent]
  split
  · rename_i h
    constructor
    · exact Or.inl
    · rintro (hk | hk)
      · exact hk
      · exact hk ▸ (alookup_isSome_iff m e.executionId).mp h
  · simp [List.mem_append, or_comm, eq_comm]

theorem mem_keys_foldl_addEvent : ∀ (evs : List VEvent) (m : EMap) (k : List Nat),
    k ∈ ((evs.foldl addEvent m).map Prod.fst) ↔
      k ∈ m.map Prod.fst ∨ ∃ e ∈ evs, e.executionId = k := by
  intro evs
  induction evs with
  | nil => intro m k; simp
  | cons e evs ih =>
      intro m k
      rw [List.foldl_cons, ih, mem_keys_addEvent]
      constructor
      · rintro ((h | h) | ⟨e', he', rfl⟩)
        · exact Or.inl h
        · exact Or.inr ⟨e, List.mem_cons_self _ _, h⟩
        · exact Or.inr ⟨e', List.mem_cons_of_mem _ he', rfl⟩
      · rintro (h | ⟨e', he', rfl⟩)
        · exact Or.inl (Or.inl h)
        · rcases List.mem_cons.mp he' with rfl | he'
          · exact Or.inl (Or.inr rfl)
          · exact Or.inr ⟨e', he', rfl⟩

theorem nodup_keys_foldl_addEvent : ∀ (evs : List VEvent) (m : EMap),
    (m.map Prod.fst).Nodup → ((evs.foldl addEvent m).map Prod.fst).Nodup := by
  intro evs
  induction evs with
  | nil => intro m h; exact h
  | cons e evs ih =>
      intro m h
      rw [List.foldl_cons]
      apply ih
      rw [keys_addEvent]
      split
      · exact h
      · rename_i hs
        rw [List.nodup_append]
        refine ⟨h, List.nodup_singleton _, ?_⟩
        intro x hx hx'
        rw [List.mem_singleton] at hx'
        subst hx'
        exact absurd ((alookup_isSome_iff m e.executionId).mpr hx) (by simp [hs])

theorem artifacts_nil_foldl_addEvent : ∀ (evs : List VEvent) (m : EMap),
    (∀ p ∈ m, p.2.artifacts = []) → ∀ p ∈ evs.foldl addEvent m, p.2.artifacts = [] := by
  intro evs
  induction evs with
  | nil => intro m h; exact h
  | cons e evs ih =>
      intro m h
      rw [List.foldl_cons]
      apply ih
      intro p hp
      cases hl : alookup m e.executionId with
      | none =>
          simp only [addEvent, hl] at hp
          rcases mem_aupdate _ _ _ _ hp with hp | ⟨v, hv, rfl⟩
          · rcases List.mem_append.mp hp with h1 | h1
            · exact h p h1
            · rw [List.mem_singleton] at h1
              rw [h1]
          · show Execution.artifacts { v with events := v.events ++ [e] } = []
            rcases List.mem_append.mp hv with h1 | h1
            · exact h _ h1
            · rw [List.mem_singleton, Prod.mk.injEq] at h1
              rw [h1.2]
      | some ex =>
          simp only [addEvent, hl] at hp
          rcases mem_aupdate _ _ _ _ hp with hp | ⟨v, hv, rfl⟩
          · exact h p hp
          · show Execution.artifacts { v with events := v.events ++ [e] } = []
            exact h _ hv

theorem keys_foldl_addArtifact : ∀ (arts : List VArtifact) (m : EMap),
    ((arts.foldl addArtifact m).map Prod.fst) = m.map Prod.fst := by
  intro arts
  induction arts with
  | nil => intro m; rfl
  | cons a arts ih =>
      intro m
      rw [List.foldl_cons, ih, addArtifact]
      cases hl : alookup m a.executionId with
      | none => rfl
      | some ex => exact keys_aupdate m a.executionId _

theorem alookup_foldl_addArtifact : ∀ (arts : List VArtifact) (m : EMap) (k : List Nat)
    (ex : Execution), alookup m k = some ex →
    alookup (arts.foldl addArtifact m) k =
      some { ex with artifacts :=
        ex.artifacts ++ arts.filter (fun a => decide (a.executionId = k)) } := by
  intro arts
  induction arts with
  | nil =>
      intro m k ex h
      simpa using h
  | cons a arts ih =>
      intro m k ex h
      rw [List.foldl_cons]
      cases hl : alookup m a.executionId with
      | none =>
          have hne : ¬(a.executionId = k) := by
            intro hk
            rw [hk, h] at hl
            exact Option.noConfusion hl
          rw [show addArtifact m a = m from by rw [addArtifact, hl],
            ih m k ex h, List.filter_cons, decide_eq_false hne]
          rfl
      | some ex0 =>
          rw [show addArtifact m a = aupdate m a.executionId
              (fun ex => { ex with artifacts := ex.artifacts ++ [a] }) from by
            rw [addArtifact, hl]]
          by_cases hk : a.executionId = k
          · subst hk
            have h2 : alookup (aupdate m a.executionId
                (fun ex => { ex with artifacts := ex.artifacts ++ [a] })) a.executionId =
                some { ex with artifacts := ex.artifacts ++ [a] } := by
              rw [alookup_aupdate, if_pos rfl, h]
              rfl
            rw [ih _ _ _ h2, List.filter_cons, decide_eq_true rfl]
            simp [List.append_assoc]
          · have h2 : alookup (aupdate m a.executionId
                (fun ex => { ex with artifacts := ex.artifacts ++ [a] })) k =
                some ex := by
              rw [alookup_aupdate, if_neg (fun hh => hk hh.symm), h]
            rw [ih _ _ _ h2, List.filter_cons, decide_eq_false hk]
            rfl

theorem alookup_foldl_childStep : ∀ (ps : List (List Nat × Option (List Nat))) (m : EMap)
    (k : List Nat),
    (alookup (ps.foldl childStep m) k).map Execution.artifacts =
      (alookup m k).map Execution.artifacts := by
  intro ps
  induction ps with
  | nil => intro m k; rfl
  | cons p ps ih =>
      intro m k
      rw [List.foldl_cons, ih, childStep]
      cases hp : p.2 with
      | none => simp only [hp]
      | some pid =>
          simp only [hp]
          split
          · rw [alookup_aupdate]
            by_cases hk : k = pid
            · rw [if_pos hk]
              cases alookup m k with
              | none => rfl
              | some ex => rfl
            · rw [if_neg hk]
          · rfl

theorem keys_foldl_childStep : ∀ (ps : List (List Nat × Option (List Nat))) (m : EMap),
    ((ps.foldl childStep m).map Prod.fst) = m.map Prod.fst := by
  intro ps
  induction ps with
  | nil => intro m; rfl
  | cons p ps ih =>
      intro m
      rw [List.foldl_cons, ih, childStep]
      cases hp : p.2 with
      | none => simp only [hp]
      | some pid =>
          simp only [hp]
          split
          · exact keys_aupdate m pid _
          · rfl

theorem artifacts_addChildren (m : EMap) (k : List Nat) :
    (alookup (addChildren m) k).map Execution.artifacts =
      (alookup m k).map Execution.artifacts :=
  alookup_foldl_childStep _ m k

theorem keys_addChildren (m : EMap) :
    ((addChildren m).map Prod.fst) = m.map Prod.fst :=
  keys_foldl_childStep _ m

end Viewer

/-- C6 (amended): tree reconstruction is total, and an artifact of the trace
is attached to the execution entry matching its execution id when some event
of the trace carries that execution id; an artifact whose execution id
matches no event of the trace appears in no execution of the output — it is
dropped, not attached to a placeholder (see `C6_counterexample`). -/
theorem C6_artifact_attachment :
    ∀ (events : List Sqlite.EventRow) (arts : List Sqlite.ArtifactRow) (tid : List Nat)
      (a : Sqlite.ArtifactRow), a ∈ arts → a.traceId = tid →
      ((∃ r ∈ events, r.traceId = tid ∧ r.executionId = a.executionId) →
        ∃ p, p ∈ (Viewer.from_database events arts tid).executions ∧
          p.1 = a.executionId ∧ Viewer.VArtifact.ofRow a ∈ p.2.artifacts) ∧
      ((∀ r ∈ events, ¬(r.traceId = tid ∧ r.executionId = a.executionId)) →
        ∀ p ∈ (Viewer.from_database events arts tid).executions,
          Viewer.VArtifact.ofRow a ∉ p.2.artifacts) := by
  intro events arts tid a hmem htid
  have hexe : (Viewer.from_database events arts tid).executions =
      Viewer.addChildren
        (((arts.filter (fun r => decide (r.traceId = tid))).map Viewer.VArtifact.ofRow).foldl
          Viewer.addArtifact
          ((((events.filter (fun r => decide (r.traceId = tid))).insertionSort
              (fun x y => x.timestamp ≤ y.timestamp)).map Viewer.VEvent.ofRow).foldl
            Viewer.addEvent [])) := rfl
  rw [hexe]
  set evs' := (((events.filter (fun r => decide (r.traceId = tid))).insertionSort
      (fun x y => x.timestamp ≤ y.timestamp)).map Viewer.VEvent.ofRow) with hevs
  set arts' := ((arts.filter (fun r => decide (r.traceId = tid))).map Viewer.VArtifact.ofRow)
    with harts
  set m1 := evs'.foldl Viewer.addEvent [] with hm1
  set m2 := arts'.foldl Viewer.addArtifact m1 with hm2
  have hA : Viewer.VArtifact.ofRow a ∈ arts' :=
    List.mem_map_of_mem _ (List.mem_filter.mpr ⟨hmem, by simp [htid]⟩)
  have hkeys1 : ∀ k, k ∈ m1.map Prod.fst ↔ ∃ e ∈ evs', e.executionId = k := by
    intro k
    rw [hm1, Viewer.mem_keys_foldl_addEvent]
    simp
  constructor
  · rintro ⟨r, hr, hrt, hre⟩
    have hrf : r ∈ events.filter (fun r => decide (r.traceId = tid)) :=
      List.mem_filter.mpr ⟨hr, by simp [hrt]⟩
    have hrs : r ∈ (events.filter (fun r => decide (r.traceId = tid))).insertionSort
        (fun x y => x.timestamp ≤ y.timestamp) :=
      ((List.perm_insertionSort _ _).mem_iff).mpr hrf
    have hE : Viewer.VEvent.ofRow r ∈ evs' := List.mem_map_of_mem _ hrs
    have hk1 : a.executionId ∈ m1.map Prod.fst := (hkeys1 _).mpr ⟨_, hE, hre⟩
    obtain ⟨ex1, hex1⟩ :=
      Option.isSome_iff_exists.mp ((Viewer.alookup_isSome_iff m1 a.executionId).mpr hk1)
    have hm2l : Viewer.alookup m2 a.executionId =
        some { ex1 with
          artifacts := ex1.artifacts ++
            List.filter (fun x => decide (x.executionId = a.executionId)) arts' } :=
      Viewer.alookup_foldl_addArtifact arts' m1 _ ex1 hex1
    have hm3 := Viewer.artifacts_addChildren m2 a.executionId
    rw [hm2l] at hm3
    obtain ⟨ex3, hex3, hart3⟩ : ∃ ex3,
        Viewer.alookup (Viewer.addChildren m2) a.executionId = some ex3 ∧
          ex3.artifacts = ex1.artifacts ++
            List.filter (fun x => decide (x.executionId = a.executionId)) arts' := by
      cases h3 : Viewer.alookup (Viewer.addChildren m2) a.executionId with
      | none => rw [h3] at hm3; exact Option.noConfusion hm3
      | some ex3 =>
          rw [h3, Option.map_some'] at hm3
          exact ⟨ex3, rfl, by injection hm3⟩
    refine ⟨(a.executionId, ex3), Viewer.alookup_mem _ _ _ hex3, rfl, ?_⟩
    rw [hart3]
    refine List.mem_append_right _ (List.mem_filter.mpr ⟨hA, by simp [Viewer.VArtifact.ofRow]⟩)
  · rintro hno p hp hbad
    have hnd1 : (m1.map Prod.fst).Nodup := Viewer.nodup_keys_foldl_addEvent evs' [] (by simp)
    have hkeys3 : (Viewer.addChildren m2).map Prod.fst = m1.map Prod.fst := by
      rw [Viewer.keys_addChildren, hm2, Viewer.keys_foldl_addArtifact]
    have hnd3 : ((Viewer.addChildren m2).map Prod.fst).Nodup := hkeys3 ▸ hnd1
    have hlook3 : Viewer.alookup (Viewer.addChildren m2) p.1 = some p.2 :=
      Viewer.mem_alookup _ _ _ hnd3 hp
    have hk : p.1 ∈ m1.map Prod.fst := by
      rw [← hkeys3]
      exact List.mem_map_of_mem Prod.fst hp
    obtain ⟨e, he, hek⟩ := (hkeys1 p.1).mp hk
    obtain ⟨r, hr, rfl⟩ := List.mem_map.mp he
    have hrf : r ∈ events.filter (fun r => decide (r.traceId = tid)) :=
      ((List.perm_insertionSort _ _).mem_iff).mp hr
    obtain ⟨hre, hrt⟩ := List.mem_filter.mp hrf
    have hrtid : r.traceId = tid := by simpa using hrt
    have hne : p.1 ≠ a.executionId := by
      intro hkeq
      exact hno r hre ⟨hrtid, (hek.trans hkeq : r.executionId = a.executionId)⟩
    obtain ⟨ex1, hex1⟩ :=
      Option.isSome_iff_exists.mp ((Viewer.alookup_isSome_iff m1 p.1).mpr hk)
    have hart1 : ex1.artifacts = [] :=
      Viewer.artifacts_nil_foldl_addEvent evs' [] (by simp) _ (Viewer.alookup_mem _ _ _ hex1)
    have hm2l := Viewer.alookup_foldl_addArtifact arts' m1 p.1 ex1 hex1
    have hm3 := Viewer.artifacts_addChildren m2 p.1
    rw [hlook3, hm2l, Option.map_some', Option.map_some'] at hm3
    have hpa : p.2.artifacts = ex1.artifacts ++
        List.filter (fun x => decide (x.executionId = p.1)) arts' := by injection hm3
    rw [hpa, hart1, List.nil_append] at hbad
    have hfe := (List.mem_filter.mp hbad).2
    have h2 : (Viewer.VArtifact.ofRow a).executionId = p.1 := by simpa using hfe
    exact hne ((show a.executionId = p.1 from h2)).symm

/-- Counterexample to C6 at a single-event, single-artifact store: the
artifact's execution id `[50]` matches no event, and the reconstructed
trace holds exactly one execution (`[49]`) with an empty artifact list —
the orphan artifact is attached nowhere, not to any placeholder. -/
theorem C6_counterexample :
    (Viewer.from_database [⟨1, [116], [49], none, [97], [109], [115], 3, []⟩]
        [⟨[105], [116], [50], [110], [99], [106], 4⟩] [116]).executions.map
          (fun p => p.2.artifacts) = [[]] ∧
    (Viewer.from_database [⟨1, [116], [49], none, [97], [109], [115], 3, []⟩]
        [⟨[105], [116], [50], [110], [99], [106], 4⟩] [116]).executions.map
          (fun p => p.1) = [[49]] :=
  ⟨rfl, rfl⟩

/-- Witness for C6 at a store holding one event (execution `[49]`) and one
artifact of the same execution: the artifact is attached to that entry. -/
theorem C6_artifact_attachment_witness :
    ∃ p, p ∈ (Viewer.from_database [⟨1, [116], [49], none, [97], [109], [115], 3, []⟩]
        [⟨[105], [116], [49], [110], [99], [106], 4⟩] [116]).executions ∧
      p.1 = [49] ∧
      Viewer.VArtifact.ofRow ⟨[105], [116], [49], [110], [99], [106], 4⟩ ∈ p.2.artifacts :=
  (C6_artifact_attachment [⟨1, [116], [49], none, [97], [109], [115], 3, []⟩]
      [⟨[105], [116], [49], [110], [99], [106], 4⟩] [116]
      ⟨[105], [116], [49], [110], [99], [106], 4⟩
      (List.mem_singleton_self _) rfl).1
    ⟨⟨1, [116], [49], none, [97], [109], [115], 3, []⟩, List.mem_singleton_self _, rfl, rfl⟩

/-- C7 (amended): reconstruction is a function of the stored record set, and
permuting the order in which the event rows were stored yields the same
tree whenever the events' timestamps are pairwise distinct; with tied
timestamps the tree can depend on storage order (see `C7_counterexample`). -/
theorem C7_order_independent :
    ∀ (evs1 evs2 : List Sqlite.EventRow) (arts : List Sqlite.ArtifactRow) (tid : List Nat),
      List.Perm evs1 evs2 →
      List.Pairwise (fun a b => a.timestamp ≠ b.timestamp) evs1 →
      Viewer.from_database evs1 arts tid = Viewer.from_database evs2 arts tid := by
  intro evs1 evs2 arts tid hperm hne
  haveI hto : IsTotal Sqlite.EventRow (fun a b => a.timestamp ≤ b.timestamp) :=
    ⟨fun a b => Nat.le_total _ _⟩
  haveI htr : IsTrans Sqlite.EventRow (fun a b => a.timestamp ≤ b.timestamp) :=
    ⟨fun a b c h1 h2 => le_trans h1 h2⟩
  haveI has : IsAntisymm Sqlite.EventRow (fun a b => a.timestamp < b.timestamp) :=
    ⟨fun a b h1 h2 => absurd (lt_trans h1 h2) (lt_irrefl _)⟩
  have hfp : List.Perm (evs1.filter (fun r => decide (r.traceId = tid)))
      (evs2.filter (fun r => decide (r.traceId = tid))) := hperm.filter _
  have hne1 : List.Pairwise (fun a b => a.timestamp ≠ b.timestamp)
      (evs1.filter (fun r => decide (r.traceId = tid))) :=
    List.Pairwise.sublist (List.filter_sublist _) hne
  have hne2 : List.Pairwise (fun a b => a.timestamp ≠ b.timestamp)
      (evs2.filter (fun r => decide (r.traceId = tid))) :=
    (hfp.pairwise_iff (fun {x y} h => h.symm)).mp hne1
  have hps1 := List.perm_insertionSort (fun (a b : Sqlite.EventRow) => a.timestamp ≤ b.timestamp)
    (evs1.filter (fun r => decide (r.traceId = tid)))
  have hps2 := List.perm_insertionSort (fun (a b : Sqlite.EventRow) => a.timestamp ≤ b.timestamp)
    (evs2.filter (fun r => decide (r.traceId = tid)))
  have hlt1 : List.Pairwise (fun (a b : Sqlite.EventRow) => a.timestamp < b.timestamp)
      ((evs1.filter (fun r => decide (r.traceId = tid))).insertionSort
        (fun a b => a.timestamp ≤ b.timestamp)) := by
    have hle := List.sorted_insertionSort (fun (a b : Sqlite.EventRow) => a.timestamp ≤ b.timestamp)
      (evs1.filter (fun r => decide (r.traceId = tid)))
    have hnes := (hps1.pairwise_iff (fun {x y} h => h.symm)).mpr hne1
    exact (hle.and hnes).imp (fun h => lt_of_le_of_ne h.1 h.2)
  have hlt2 : List.Pairwise (fun (a b : Sqlite.EventRow) => a.timestamp < b.timestamp)
      ((evs2.filter (fun r => decide (r.traceId = tid))).insertionSort
        (fun a b => a.timestamp ≤ b.timestamp)) := by
    have hle := List.sorted_insertionSort (fun (a b : Sqlite.EventRow) => a.timestamp ≤ b.timestamp)
      (evs2.filter (fun r => decide (r.traceId = tid)))
    have hnes := (hps2.pairwise_iff (fun {x y} h => h.symm)).mpr hne2
    exact (hle.and hnes).imp (fun h => lt_of_le_of_ne h.1 h.2)
  have hs : (evs1.filter (fun r => decide (r.traceId = tid))).insertionSort
        (fun a b => a.timestamp ≤ b.timestamp) =
      (evs2.filter (fun r => decide (r.traceId = tid))).insertionSort
        (fun a b => a.timestamp ≤ b.timestamp) :=
    List.eq_of_perm_of_sorted (hps1.trans (hfp.trans hps2.symm)) hlt1 hlt2
  rw [Viewer.from_database, Viewer.from_database, hs]

/-- Counterexample to C7: two events of one execution share a timestamp;
swapping their storage order changes which one founds the execution entry,
so the reconstructed trees differ (agent `[97]` against `[98]`). -/
theorem C7_counterexample :
    List.Perm
      [(⟨1, [116], [69], none, [97], [109], [115], 5, []⟩ : Sqlite.EventRow),
       ⟨2, [116], [69], some [80], [98], [109], [115], 5, []⟩]
      [⟨2, [116], [69], some [80], [98], [109], [115], 5, []⟩,
       ⟨1, [116], [69], none, [97], [109], [115], 5, []⟩] ∧
    Viewer.from_database
        [⟨1, [116], [69], none, [97], [109], [115], 5, []⟩,
         ⟨2, [116], [69], some [80], [98], [109], [115], 5, []⟩] [] [116] ≠
      Viewer.from_database
        [⟨2, [116], [69], some [80], [98], [109], [115], 5, []⟩,
         ⟨1, [116], [69], none, [97], [109], [115], 5, []⟩] [] [116] := by
  refine ⟨List.Perm.swap _ _ _, fun h => ?_⟩
  have h1 : (Viewer.alookup (Viewer.from_database
      [⟨1, [116], [69], none, [97], [109], [115], 5, []⟩,
       ⟨2, [116], [69], some [80], [98], [109], [115], 5, []⟩] [] [116]).executions
      [69]).map Viewer.Execution.agentName = some [97] := rfl
  have h2 : (Viewer.alookup (Viewer.from_database
      [⟨2, [116], [69], some [80], [98], [109], [115], 5, []⟩,
       ⟨1, [116], [69], none, [97], [109], [115], 5, []⟩] [] [116]).executions
      [69]).map Viewer.Execution.agentName = some [98] := rfl
  rw [h] at h1
  rw [h1] at h2
  exact absurd h2 (by simp)

/-- Witness for C7 at two events with distinct timestamps 3 and 5: swapping
their storage order leaves the reconstructed trace unchanged. -/
theorem C7_order_independent_witness :
    Viewer.from_database
        [(⟨1, [116], [69], none, [97], [109], [115], 3, []⟩ : Sqlite.EventRow),
         ⟨2, [116], [70], some [69], [98], [109], [115], 5, []⟩] [] [116] =
      Viewer.from_database
        [⟨2, [116], [70], some [69], [98], [109], [115], 5, []⟩,
         ⟨1, [116], [69], none, [97], [109], [115], 3, []⟩] [] [116] :=
  C7_order_independent
    [⟨1, [116], [69], none, [97], [109], [115], 3, []⟩,
     ⟨2, [116], [70], some [69], [98], [109], [115], 5, []⟩]
    [⟨2, [116], [70], some [69], [98], [109], [115], 5, []⟩,
     ⟨1, [116], [69], none, [97], [109], [115], 3, []⟩] [] [116]
    (List.Perm.swap _ _ _)
    (by simp [List.pairwise_cons])

namespace Viewer

theorem foldl_min_le_init (l : List Sqlite.EventRow) : ∀ acc : Nat,
    l.foldl (fun a q => min a q.timestamp) acc ≤ acc := by
  induction l with
  | nil => intro acc; exact le_rfl
  | cons r l ih =>
      intro acc
      rw [List.foldl_cons]
      exact le_trans (ih _) (min_le_left _ _)

theorem foldl_min_le_mem (l : List Sqlite.EventRow) : ∀ (acc : Nat) (r : Sqlite.EventRow),
    r ∈ l → l.foldl (fun a q => min a q.timestamp) acc ≤ r.timestamp := by
  induction l with
  | nil => intro acc r hr; simp at hr
  | cons q l ih =>
      intro acc r hr
      rw [List.foldl_cons]
      rcases List.mem_cons.mp hr with rfl | hr
      · exact le_trans (foldl_min_le_init l _) (min_le_right _ _)
      · exact ih _ r hr

theorem foldl_min_attained (l : List Sqlite.EventRow) : ∀ acc : Nat,
    l.foldl (fun a q => min a q.timestamp) acc = acc ∨
      ∃ r ∈ l, l.foldl (fun a q => min a q.timestamp) acc = r.timestamp := by
  induction l with
  | nil => intro acc; exact Or.inl rfl
  | cons q l ih =>
      intro acc
      rw [List.foldl_cons]
      rcases ih (min acc q.timestamp) with h | ⟨r, hr, h⟩
      · rcases min_cases acc q.timestamp with ⟨hm, _⟩ | ⟨hm, _⟩
        · exact Or.inl (h.trans hm)
        · exact Or.inr ⟨q, List.mem_cons_self _ _, h.trans hm⟩
      · exact Or.inr ⟨r, List.mem_cons_of_mem _ hr, h⟩

theorem minTs_le (rs : List Sqlite.EventRow) (r : Sqlite.EventRow) (hr : r ∈ rs) :
    minTs rs ≤ r.timestamp := by
  cases rs with
  | nil => simp at hr
  | cons q rest =>
      rw [minTs]
      rcases List.mem_cons.mp hr with rfl | hr
      · exact foldl_min_le_init rest _
      · exact foldl_min_le_mem rest _ r hr

theorem minTs_attained (rs : List Sqlite.EventRow) (h : rs ≠ []) :
    ∃ r ∈ rs, r.timestamp = minTs rs := by
  cases rs with
  | nil => exact absurd rfl h
  | cons q rest =>
      rw [minTs]
      rcases foldl_min_attained rest q.timestamp with h1 | ⟨r, hr, h1⟩
      · exact ⟨q, List.mem_cons_self _ _, h1.symm⟩
      · exact ⟨r, List.mem_cons_of_mem _ hr, h1.symm⟩

theorem firstOccur_subset : ∀ (l seen : List (List Nat)) (k : List Nat),
    k ∈ firstOccur l seen → k ∈ l := by
  intro l
  induction l with
  | nil => intro seen k h; simp [firstOccur] at h
  | cons a l ih =>
      intro seen k h
      rw [firstOccur] at h
      split at h
      · exact List.mem_cons_of_mem _ (ih _ _ h)
      · rcases List.mem_cons.mp h with rfl | h
        · exact List.mem_cons_self _ _
        · exact List.mem_cons_of_mem _ (ih _ _ h)

end Viewer

/-- C9: `list_traces(limit)` returns at most `limit` summaries, ordered by
start time descending (later-starting traces first), and each summary's
start time is the minimum timestamp over its trace's stored events —
attained by one of them and a lower bound for all of them. -/
theorem C9_list_traces_order :
    ∀ (events : List Sqlite.EventRow) (limit : Nat),
      (Viewer.list_traces events limit).length ≤ limit ∧
      List.Pairwise (fun s t => t.start_time ≤ s.start_time)
        (Viewer.list_traces events limit) ∧
      (∀ s ∈ Viewer.list_traces events limit,
        (∃ r ∈ events, r.traceId = s.trace_id ∧ r.timestamp = s.start_time) ∧
        (∀ r ∈ events, r.traceId = s.trace_id → s.start_time ≤ r.timestamp)) := by
  intro events limit
  haveI : IsTotal Viewer.TraceSummary (fun s t => t.start_time ≤ s.start_time) :=
    ⟨fun a b => Nat.le_total _ _⟩
  haveI : IsTrans Viewer.TraceSummary (fun s t => t.start_time ≤ s.start_time) :=
    ⟨fun a b c h1 h2 => le_trans h2 h1⟩
  refine ⟨?_, ?_, ?_⟩
  · exact List.length_take_le _ _
  · exact List.Pairwise.sublist (List.take_sublist _ _)
      (List.sorted_insertionSort _ _)
  · intro s hs
    have hs2 : s ∈ ((Viewer.firstOccur (events.map (fun r => r.traceId)) []).map
        (Viewer.summarize events)).insertionSort (fun a b => b.start_time ≤ a.start_time) :=
      (List.take_sublist _ _).subset hs
    have hs3 : s ∈ (Viewer.firstOccur (events.map (fun r => r.traceId)) []).map
        (Viewer.summarize events) := (List.perm_insertionSort _ _).subset hs2
    obtain ⟨tid, htid, rfl⟩ := List.mem_map.mp hs3
    have htid2 : tid ∈ events.map (fun r => r.traceId) := Viewer.firstOccur_subset _ _ _ htid
    obtain ⟨r0, hr0, hr0t⟩ := List.mem_map.mp htid2
    have hr0f : r0 ∈ events.filter (fun r => decide (r.traceId = tid)) :=
      List.mem_filter.mpr ⟨hr0, by simp [hr0t]⟩
    have hne : events.filter (fun r => decide (r.traceId = tid)) ≠ [] :=
      List.ne_nil_of_mem hr0f
    constructor
    · obtain ⟨r, hr, hrt⟩ := Viewer.minTs_attained _ hne
      obtain ⟨hre, hrtid⟩ := List.mem_filter.mp hr
      exact ⟨r, hre, by simpa using hrtid, hrt⟩
    · intro r hre hrtid
      have hr : r ∈ events.filter (fun x => decide (x.traceId = tid)) :=
        List.mem_filter.mpr ⟨hre, by simpa using hrtid⟩
      exact Viewer.minTs_le _ r hr

/-- Witness for C9 at a store with two traces (start times 9 and 5): the
summary of trace `[116]` reports start time 9, attained by an event and a
lower bound of the trace's timestamps. -/
theorem C9_list_traces_order_witness :
    (∃ r ∈ [(⟨1, [116], [49], none, [97], [109], [115], 9, []⟩ : Sqlite.EventRow),
        ⟨2, [117], [50], none, [98], [109], [115], 5, []⟩],
      r.traceId = [116] ∧ r.timestamp = 9) ∧
    (∀ r ∈ [(⟨1, [116], [49], none, [97], [109], [115], 9, []⟩ : Sqlite.EventRow),
        ⟨2, [117], [50], none, [98], [109], [115], 5, []⟩],
      r.traceId = [116] → 9 ≤ r.timestamp) :=
  (C9_list_traces_order
      [⟨1, [116], [49], none, [97], [109], [115], 9, []⟩,
       ⟨2, [117], [50], none, [98], [109], [115], 5, []⟩] 10).2.2
    ⟨[116], [97], 1, 0, 9⟩ (by decide)
